import Mathlib

/-!
# Verification of the CloudWatch Logs datasource query engine

Shallow embedding of `src/datasource.go` (grafana-aws-cloudwatch-logs-datasource).
Go pointers to scalars are modelled as `Option`; dereferencing a `none` pointer is
a nil-pointer panic, modelled by `GoResult.panic`.  The remote CloudWatch Logs
service is modelled as the sequence of response pages it would deliver: a
pagination loop that stops early simply does not consume the remaining pages.
Machine integers (`int64`) stay well inside their range in every construction of
this file, so they are modelled by `Int` without explicit wrap-around.
-/

set_option maxHeartbeats 1000000
set_option maxRecDepth 1000
set_option linter.unusedVariables false

/-- Outcome of a Go computation: a runtime panic (nil-pointer dereference),
an error return, or a normal value. -/
inductive GoResult (α : Type) where
  | panic : GoResult α
  | err : String → GoResult α
  | ok : α → GoResult α
deriving DecidableEq

/-- `cloudwatchlogs.FilteredLogEvent` (pointer fields as `Option`). -/
structure FilteredLogEvent where
  LogStreamName : Option String := none
  IngestionTime : Option Int := none
  Message : Option String := none
  Timestamp : Option Int := none
deriving DecidableEq

/-- `cloudwatchlogs.OutputLogEvent`: what `GetLogEvents` returns.
It carries no stream name. -/
structure OutputLogEvent where
  IngestionTime : Option Int := none
  Message : Option String := none
  Timestamp : Option Int := none
deriving DecidableEq

/-- `cloudwatchlogs.FilterLogEventsInput` (the fields `datasource.go` reads). -/
structure FilterLogEventsInput where
  LogGroupName : Option String := none
  LogStreamNames : List String := []
  FilterPattern : Option String := none
  Limit : Option Int := none
  StartTime : Option Int := none
  EndTime : Option Int := none
deriving DecidableEq

/-- The shared page-accumulation loop of `getLogEvent` (datasource.go:376-386 and
396-414).  Each callback invocation appends the page's events to `resp.Events`,
then stops when the accumulated count exceeds the 10000 safety limit, then
dereferences `*input.Limit` (a nil `Limit` panics here) and stops once the count
reaches it; otherwise it continues until the last page. -/
def eventsLoop (limit : Option Int) : List FilteredLogEvent → List (List FilteredLogEvent) →
    GoResult (List FilteredLogEvent)
  | acc, [] => .ok acc
  | acc, page :: rest =>
    let acc2 := acc ++ page
    if acc2.length > 10000 then .ok acc2
    else
      match limit with
      | none => .panic
      | some lim => if (acc2.length : Int) ≥ lim then .ok acc2 else eventsLoop limit acc2 rest

/-- The single-stream strategy synthesizes a `FilteredLogEvent` from each
`OutputLogEvent` by attaching the requested stream name (datasource.go:398-405). -/
def toFilteredEvent (s : String) (e : OutputLogEvent) : FilteredLogEvent :=
  { LogStreamName := some s
    IngestionTime := e.IngestionTime
    Message := e.Message
    Timestamp := e.Timestamp }

/-- `getLogEvent` (datasource.go:368-421).  `filterPages` are the pages the remote
`FilterLogEventsPages` operation would deliver, `getPages` those of
`GetLogEventsPages`.  The test `*input.FilterPattern != "" || len(input.LogStreamNames) != 1`
dereferences `FilterPattern` unconditionally (nil panics) and selects the filter
strategy; otherwise the direct stream-read strategy runs with the single stream
name attached to every event.  In the source the per-event attachment happens
inside the page callback; mapping each page before the shared loop is the same
accumulation. -/
def getLogEvent (input : FilterLogEventsInput) (startFromHead : Bool)
    (filterPages : List (List FilteredLogEvent)) (getPages : List (List OutputLogEvent)) :
    GoResult (List FilteredLogEvent) :=
  match input.FilterPattern with
  | none => .panic
  | some fp =>
    if fp ≠ "" ∨ input.LogStreamNames.length ≠ 1 then
      eventsLoop input.Limit [] filterPages
    else
      match input.LogStreamNames with
      | [s] => eventsLoop input.Limit [] (getPages.map (fun p => p.map (toFilteredEvent s)))
      | _ => .panic

/-- Total number of events across a page list. -/
def pagesSize (pages : List (List FilteredLogEvent)) : Nat :=
  (pages.map List.length).sum

example : eventsLoop (some 5) [] [[{}, {}, {}], [{}, {}, {}, {}, {}]] =
    .ok [{}, {}, {}, {}, {}, {}, {}, {}] := by decide

example : eventsLoop none [] [[{}]] = .panic := by decide

/-! ## Legend formatter (`formatLegend`, datasource.go:447-468)

The compiled pattern is `\{\{\s*(.+?)\s*\}\}` (datasource.go:47), applied with
`ReplaceAllFunc`.  RE2 `\s` is `[\t\n\f\r ]` and `.` matches any character but
`'\n'`.  Matching is leftmost, and at a match start the leading `\s*` is greedy,
`.+?` grows from the shortest, and the trailing `\s*` is greedy, exactly the
search order implemented below.  Templates are modelled as their character
sequences (ASCII templates coincide with Go's byte view). -/

/-- RE2 `\s`. -/
def reSpace (c : Char) : Bool :=
  c = ' ' ∨ c = '\t' ∨ c = '\n' ∨ c = '\u000C' ∨ c = '\r'

/-- Go `unicode.IsSpace`, used by `strings.TrimSpace`: the ASCII whitespace
`'\t'`-`'\r'` and `' '`, the Latin-1 `U+0085` and `U+00A0`, and the remaining
Unicode `White_Space` code points `U+1680`, `U+2000`-`U+200A`, `U+2028`,
`U+2029`, `U+202F`, `U+205F` and `U+3000`. -/
def goSpace (c : Char) : Bool :=
  c = '\t' ∨ c = '\n' ∨ c = '\u000B' ∨ c = '\u000C' ∨ c = '\r' ∨ c = ' ' ∨
    c = '\u0085' ∨ c = '\u00A0' ∨ c = '\u1680' ∨ ('\u2000' ≤ c ∧ c ≤ '\u200A') ∨
    c = '\u2028' ∨ c = '\u2029' ∨ c = '\u202F' ∨ c = '\u205F' ∨ c = '\u3000'

/-- Length of the maximal `\s*` run at the front. -/
def wsRun (l : List Char) : Nat := (l.takeWhile reSpace).length

/-- Does the literal `}}` of the pattern match here? -/
def hasPrefixBB : List Char → Bool
  | a :: b :: _ => a = '}' ∧ b = '}'
  | _ => false

/-- Trailing `\s*\}\}`: try the trail length `t` first (greedy), then shorter. -/
def trailSearchAux : Nat → List Char → Option Nat
  | 0, r => if hasPrefixBB r then some 0 else none
  | t + 1, r => if hasPrefixBB (r.drop (t + 1)) then some (t + 1) else trailSearchAux t r

/-- Trailing `\s*\}\}` with the greedy maximal trail tried first. -/
def trailSearch (r : List Char) : Option Nat := trailSearchAux (wsRun r) r

/-- `(.+?)\s*\}\}`: grow the non-greedy content one character at a time; a
newline can never be part of `.+`.  Returns the total number of characters
consumed from the content start through the closing braces. -/
def contentSearch : Nat → List Char → Option Nat
  | _, [] => none
  | clen, c :: rest =>
    if c = '\n' then none
    else
      match trailSearch rest with
      | some t => some (clen + 1 + t + 2)
      | none => contentSearch (clen + 1) rest

/-- `\s*(.+?)\s*\}\}` with the greedy lead of length `l` tried first. -/
def matchAfterAux : Nat → List Char → Option Nat
  | 0, r => contentSearch 0 r
  | l + 1, r =>
    match contentSearch 0 (r.drop (l + 1)) with
    | some m => some (l + 1 + m)
    | none => matchAfterAux l r

/-- Given the text after an opening `{{`, the number of characters the rest of
the pattern consumes, or `none` when no match starts at this `{{`. -/
def matchAfterBraces (r : List Char) : Option Nat := matchAfterAux (wsRun r) r

/-- `strings.Replace(s, pat, "", 1)`: drop the first occurrence of `pat`. -/
def removeFirst (pat : List Char) : List Char → List Char
  | [] => []
  | c :: rest =>
    if pat.isPrefixOf (c :: rest) then (c :: rest).drop pat.length
    else c :: removeFirst pat rest

/-- `strings.TrimSpace`. -/
def trimSpace (l : List Char) : List Char :=
  ((l.dropWhile goSpace).reverse.dropWhile goSpace).reverse

/-- Read of the Go tag map, modelled as an association list with unique keys. -/
def lookupKV : List (String × String) → String → Option String
  | [], _ => none
  | p :: rest, k => if p.1 = k then some p.2 else lookupKV rest k

/-- The `ReplaceAllFunc` callback (datasource.go:456-465): strip the first `{{`
and the first `}}`, trim whitespace, and substitute the tag value when the name
is present; otherwise return the match verbatim. -/
def legendCallback (kv : List (String × String)) (inBytes : List Char) : List Char :=
  match lookupKV kv
      (String.mk (trimSpace (removeFirst ['}', '}'] (removeFirst ['{', '{'] inBytes)))) with
  | some v => v.data
  | none => inBytes

/-- `ReplaceAllFunc` over the template: successive non-overlapping leftmost
matches are replaced through `legendCallback`.  Each step consumes at least one
character, so fuel equal to the template length (supplied by `replaceLoop`)
never runs out; the fuel only makes the recursion structural. -/
def replaceLoopF (kv : List (String × String)) : Nat → List Char → List Char
  | 0, l => l
  | _ + 1, [] => []
  | fuel + 1, c :: rest =>
    if c = '{' then
      match rest with
      | c2 :: rest2 =>
        if c2 = '{' then
          match matchAfterBraces rest2 with
          | some n =>
            legendCallback kv ('{' :: '{' :: rest2.take n) ++
              replaceLoopF kv fuel (rest2.drop n)
          | none => c :: replaceLoopF kv fuel (c2 :: rest2)
        else c :: replaceLoopF kv fuel (c2 :: rest2)
      | [] => [c]
    else c :: replaceLoopF kv fuel rest

/-- `ReplaceAllFunc` over the whole template. -/
def replaceLoop (kv : List (String × String)) (l : List Char) : List Char :=
  replaceLoopF kv l.length l

/-- `formatLegend` (datasource.go:447-468).  The Go tag map's unspecified
iteration order in the empty-template branch is modelled as the association
list's order. -/
def formatLegend (kv : List (String × String)) (legendFormat : String) : String :=
  if legendFormat = "" then
    "\x7b" ++ String.intercalate "," (kv.map fun p => p.1 ++ "=\"" ++ p.2 ++ "\"") ++ "\x7d"
  else
    String.mk (replaceLoop kv legendFormat.data)

example : formatLegend [("host", "a")] "\x7b\x7b host \x7d\x7d" = "a" := by decide
example : formatLegend [("a", "1")] "" = "\x7ba=\"1\"\x7d" := by decide
example : formatLegend [("host", "a")] "\x7b\x7b other \x7d\x7d" = "\x7b\x7b other \x7d\x7d" := by
  decide

/-! ## Timestamp parsing for the Insights time-series transform

`time.Parse("2006-01-02 15:04:05.000", v)` (datasource.go:306) parses a fixed
`YYYY-MM-DD HH:MM:SS.sss` layout in UTC with strict field widths and range
validation, and `t.Unix()` is the whole-second Unix epoch.  `timeParse` returns
`(unix seconds, milliseconds)`; parse failure is `none`. -/

/-- Numeric value of an ASCII digit. -/
def digitVal (c : Char) : Option Nat :=
  if '0' ≤ c ∧ c ≤ '9' then some (c.toNat - 48) else none

/-- Gregorian leap year. -/
def isLeap (y : Int) : Bool := (y % 4 = 0 ∧ y % 100 ≠ 0) ∨ y % 400 = 0

/-- Length of a month, as validated by Go's date checking. -/
def daysInMonth (y : Int) : Nat → Nat
  | 1 => 31
  | 2 => if isLeap y then 29 else 28
  | 3 => 31
  | 4 => 30
  | 5 => 31
  | 6 => 30
  | 7 => 31
  | 8 => 31
  | 9 => 30
  | 10 => 31
  | 11 => 30
  | 12 => 31
  | _ => 0

/-- Days from 1970-01-01 of a civil date (standard era-based computation).  For
four-digit years the shifted year is at least `-1`, where every integer-division
convention agrees (the only negative dividend is the exact `-400 / 400`). -/
def daysFromCivil (y m d : Int) : Int :=
  let y2 := if m ≤ 2 then y - 1 else y
  let era := (if 0 ≤ y2 then y2 else y2 - 399) / 400
  let yoe := y2 - era * 400
  let mp := if 2 < m then m - 3 else m + 9
  let doy := (153 * mp + 2) / 5 + d - 1
  let doe := yoe * 365 + yoe / 4 - yoe / 100 + doy
  era * 146097 + doe - 719468

/-- Consume one expected literal layout character. -/
def expectChar (c : Char) : List Char → Option (List Char)
  | x :: rest => if x = c then some rest else none
  | [] => none

/-- Consume exactly `n` ASCII digits (Go's fixed-width numeric layout fields),
returning their value. -/
def takeDigits : Nat → Nat → List Char → Option (Nat × List Char)
  | 0, acc, l => some (acc, l)
  | n + 1, acc, l =>
    match l with
    | c :: rest =>
      match digitVal c with
      | some d => takeDigits n (acc * 10 + d) rest
      | none => none
    | [] => none

/-- A fixed-width number followed by a literal layout character. -/
def numThenChar (n : Nat) (c : Char) (l : List Char) : Option (Nat × List Char) :=
  (takeDigits n 0 l).bind fun p => (expectChar c p.2).bind fun r => some (p.1, r)

/-- The `2006-01-02 ` part of the layout: year, month, day. -/
def parseDatePart (l : List Char) : Option (Nat × Nat × Nat × List Char) :=
  (numThenChar 4 '-' l).bind fun py =>
  (numThenChar 2 '-' py.2).bind fun pm =>
  (numThenChar 2 ' ' pm.2).bind fun pd =>
  some (py.1, pm.1, pd.1, pd.2)

/-- The `15:04:05.000` part of the layout: hour, minute, second, milliseconds. -/
def parseTimePart (l : List Char) : Option (Nat × Nat × Nat × Nat × List Char) :=
  (numThenChar 2 ':' l).bind fun ph =>
  (numThenChar 2 ':' ph.2).bind fun pi =>
  (numThenChar 2 '.' pi.2).bind fun ps =>
  (takeDigits 3 0 ps.2).bind fun pf =>
  some (ph.1, pi.1, ps.1, pf.1, pf.2)

/-- Go's range validation and conversion to the Unix epoch; the whole value must
have been consumed. -/
def timeFinish (yy mm dd hh mi se ms : Nat) (r : List Char) : Option (Int × Nat) :=
  match r with
  | [] =>
    if 1 ≤ mm ∧ mm ≤ 12 ∧ 1 ≤ dd ∧ dd ≤ daysInMonth (yy : Int) mm ∧
        hh ≤ 23 ∧ mi ≤ 59 ∧ se ≤ 59 then
      some (daysFromCivil (yy : Int) (mm : Int) (dd : Int) * 86400 +
        (hh : Int) * 3600 + (mi : Int) * 60 + (se : Int), ms)
    else none
  | _ => none

/-- `time.Parse("2006-01-02 15:04:05.000", s)` followed by `.Unix()`:
`some (unix seconds, milliseconds)` on success.  The layout's widths are strict,
the whole value must be consumed, and Go validates every field's range
(including day-of-month). -/
def timeParse (s : String) : Option (Int × Nat) :=
  (parseDatePart s.data).bind fun pd =>
  (parseTimePart pd.2.2.2).bind fun pt =>
  timeFinish pd.1 pd.2.1 pd.2.2.1 pt.1 pt.2.1 pt.2.2.1 pt.2.2.2.1 pt.2.2.2.2

example : timeParse "1970-01-01 00:00:00.500" = some (0, 500) := by decide
example : timeParse "1970-01-02 00:00:00.123" = some (86400, 123) := by decide
example : timeParse "2021-02-29 00:00:00.000" = none := by decide

/-! ## The Insights time-series transform (datasource.go:292-344)

The value column goes through `strconv.ParseFloat`; IEEE-754 parsing is
abstracted as a parameter `parseVal` into an arbitrary value type `α`, with
`v0` the zero value of Go's `var value float64`.  The transform's error return
(a failed parse aborts the whole call) is modelled by `Option`.  The Go tag map
is modelled as an association list updated in field order, and the
nondeterministic map-range order used to emit the final series list is modelled
as insertion order. -/

/-- A `datasource.TimeSeries` with points of value type `α`. -/
structure TimeSeriesG (α : Type) where
  Name : String
  Tags : List (String × String)
  Points : List (Int × α)
deriving DecidableEq

/-- Go map write `kv[columnName] = value`. -/
def insertKV : List (String × String) → String → String → List (String × String)
  | [], k, v => [(k, v)]
  | p :: rest, k, v => if p.1 = k then (k, v) :: rest else p :: insertKV rest k v

/-- One field of a result row (datasource.go:302-319): the first matching case
of the `switch` wins; a `TimestampColumn` match parses the fixed layout and
stores `t.Unix() * 1000`, a `ValueColumn` match parses the float, anything else
becomes a tag. -/
def rowStep (tsCol valCol : String) (parseVal : String → Option α)
    (st : Option (Int × α × List (String × String))) (f : String × String) :
    Option (Int × α × List (String × String)) :=
  match st with
  | none => none
  | some (ts, v, kv) =>
    if f.1 = tsCol then (timeParse f.2).map fun p => (p.1 * 1000, v, kv)
    else if f.1 = valCol then (parseVal f.2).map fun q => (ts, q, kv)
    else some (ts, v, insertKV kv f.1 f.2)

/-- Process one result row starting from Go's zero values
(`var timestamp int64; var value float64; kv := map[string]string{}`). -/
def rowExtract (tsCol valCol : String) (parseVal : String → Option α) (v0 : α)
    (r : List (String × String)) : Option (Int × α × List (String × String)) :=
  r.foldl (rowStep tsCol valCol parseVal) (some (0, v0, []))

/-- `series[name]` update (datasource.go:322-332): append the point to the series
with this name, creating it (with the current row's tags) when absent. -/
def appendPoint : List (TimeSeriesG α) → String → List (String × String) → Int × α →
    List (TimeSeriesG α)
  | [], name, kv, pt => [⟨name, kv, [pt]⟩]
  | s :: rest, name, kv, pt =>
    if s.Name = name then ⟨s.Name, s.Tags, s.Points ++ [pt]⟩ :: rest
    else s :: appendPoint rest name kv pt

/-- The row loop of the `"timeserie"` branch. -/
def insightsFold (tsCol valCol lf : String) (parseVal : String → Option α) (v0 : α) :
    List (TimeSeriesG α) → List (List (String × String)) → Option (List (TimeSeriesG α))
  | acc, [] => some acc
  | acc, r :: rest =>
    match rowExtract tsCol valCol parseVal v0 r with
    | none => none
    | some (ts, v, kv) =>
      insightsFold tsCol valCol lf parseVal v0
        (appendPoint acc (formatLegend kv lf) kv (ts, v)) rest

/-- The whole `"timeserie"` transform of `handleInsightsQuery`
(datasource.go:292-344). -/
def insightsTimeSeries (tsCol valCol lf : String) (parseVal : String → Option α) (v0 : α)
    (rows : List (List (String × String))) : Option (List (TimeSeriesG α)) :=
  insightsFold tsCol valCol lf parseVal v0 [] rows

/-! ## Response shapes and the plain retrieval path -/

/-- A `datasource.Table`; this engine emits string-typed cells only, so a row is
its list of string values. -/
structure Table where
  Columns : List String := []
  Rows : List (List String) := []
deriving DecidableEq

/-- A `datasource.QueryResult`.  `MetaJson` is modelled as the string map that
`json.Marshal` receives (the insights paths marshal `map[string]string` values).
The plain and start-query paths never construct series, so the series slice is
typed over `Unit` points here. -/
structure QueryResult where
  RefId : String := ""
  Error : Option String := none
  MetaJson : Option (List (String × String)) := none
  Tables : List Table := []
  Series : List (TimeSeriesG Unit) := []
deriving DecidableEq

/-- The `Target` model fields `datasource.go` reads (JSON unmarshal of a query's
`modelJson`; Go zero values as defaults). -/
structure Target where
  RefId : String := ""
  QueryType : String := ""
  Format : String := ""
  Region : String := ""
  UseInsights : Bool := false
  Input : FilterLogEventsInput := {}
  QueryId : String := ""
  LegendFormat : String := ""
  TimestampColumn : String := ""
  ValueColumn : String := ""
  StartFromHead : Bool := false
deriving DecidableEq

/-- The four fixed-column rows of `parseTableResponse` (datasource.go:430-439).
Every row dereferences the event's `Timestamp`, `IngestionTime`,
`LogStreamName` and `Message` pointers (nil panics).  `fmt sec nsec` abstracts
`time.Unix(sec, nsec).Format(time.RFC3339)`, whose output depends on the
process's local time zone; the argument split `ts/1000, ts%1000*1000*1000`
uses Go's truncating `/` and `%`, which agree with `Int.tdiv`/`Int.tmod`. -/
def parseTableRows (fmt : Int → Int → String) : List FilteredLogEvent →
    Option (List (List String))
  | [] => some []
  | e :: rest =>
    match e.Timestamp, e.IngestionTime, e.LogStreamName, e.Message with
    | some ts, some ing, some sn, some msg =>
      (parseTableRows fmt rest).map fun rows =>
        [fmt (ts.tdiv 1000) ((ts.tmod 1000) * 1000 * 1000),
         fmt (ing.tdiv 1000) ((ing.tmod 1000) * 1000 * 1000), sn, msg] :: rows
    | _, _, _, _ => none

/-- `parseTableResponse` (datasource.go:423-445): a fixed four-column table, one
row per record in retrieval order; a nil event field is a panic. -/
def parseTableResponse (fmt : Int → Int → String) (events : List FilteredLogEvent)
    (refId : String) : GoResult QueryResult :=
  match parseTableRows fmt events with
  | none => .panic
  | some rows =>
    .ok { RefId := refId,
          Tables := [{ Columns := ["Timestamp", "IngestionTime", "LogStreamName", "Message"],
                       Rows := rows }] }

/-- The target loop of `handleQuery` (datasource.go:164-180).  `remote i` gives
the pages the remote service would deliver for the `i`-th target.  Each target's
retrieval runs first; then the `switch` on `Format` either fails the whole call
with `"not supported"` (`"timeserie"`), appends a table result (`"table"`), or
appends nothing. -/
def handleQueryAux (fmt : Int → Int → String)
    (remote : Nat → List (List FilteredLogEvent) × List (List OutputLogEvent)) :
    Nat → List Target → List QueryResult → GoResult (List QueryResult)
  | _, [], acc => .ok acc
  | i, tg :: rest, acc =>
    match getLogEvent tg.Input tg.StartFromHead (remote i).1 (remote i).2 with
    | .panic => .panic
    | .err e => .err e
    | .ok evs =>
      if tg.Format = "timeserie" then .err "not supported"
      else if tg.Format = "table" then
        match parseTableResponse fmt evs tg.RefId with
        | .panic => .panic
        | .err e => .err e
        | .ok r => handleQueryAux fmt remote (i + 1) rest (acc ++ [r])
      else handleQueryAux fmt remote (i + 1) rest acc

/-- `handleQuery` (datasource.go:142-183) after the per-target JSON and time
range decoding succeeded. -/
def handleQuery (fmt : Int → Int → String)
    (remote : Nat → List (List FilteredLogEvent) × List (List OutputLogEvent))
    (targets : List Target) : GoResult (List QueryResult) :=
  handleQueryAux fmt remote 0 targets []

/-- The plain-path wrapper in `Query` (datasource.go:112-123): an error from
`handleQuery` becomes a successful response holding a single error-only result. -/
def queryPlainWrap : GoResult (List QueryResult) → GoResult (List QueryResult)
  | .err e => .ok [{ Error := some e }]
  | x => x

/-! ## The Insights start branch (datasource.go:209-229) -/

/-- The fresh-submission branch of `handleInsightsQuery`: when the target's
job id is empty, a start-job call is issued; `startResp` is its outcome (the
throttling retries happen inside the outbound client).  On success the response
is a single result whose `MetaJson` marshals `map[string]string{"QueryId": id}`.
`none` means the branch is not taken (a non-empty job id falls through to the
resume path, datasource.go:231-365). -/
def handleInsightsQueryStart (target : Target) (startResp : Except String String) :
    Option (GoResult (List QueryResult)) :=
  if target.QueryId = "" then
    some (match startResp with
      | .error e => .err e
      | .ok qid => .ok [{ RefId := target.RefId, MetaJson := some [("QueryId", qid)] }])
  else none

/-! ## Suggestion / autocomplete queries (`metricFindQuery`, datasource.go:475-549)

The remote listing operations always populate the name and creation-time fields,
so they are modelled as plain values.  `sort.Slice` with the strict
greater-than comparator is an unstable sort; it is modelled by insertion sort
with the matching non-strict relation, which agrees up to the order of entries
with equal creation times. -/

/-- A `cloudwatchlogs.LogGroup` as read by `metricFindQuery`. -/
structure LogGroup where
  LogGroupName : String
  CreationTime : Int
deriving DecidableEq

/-- A `cloudwatchlogs.LogStream` as read by `metricFindQuery`. -/
structure LogStream where
  LogStreamName : String
  CreationTime : Int
deriving DecidableEq

/-- The page-accumulation loop with the 100-entry safety limit
(datasource.go:493-499 and 521-527). -/
def suggestLoop {α : Type} : List α → List (List α) → List α
  | acc, [] => acc
  | acc, page :: rest =>
    let acc2 := acc ++ page
    if acc2.length > 100 then acc2 else suggestLoop acc2 rest

/-- Descending creation time, the order produced by the `sort.Slice` calls. -/
def creationGeG (a b : LogGroup) : Prop := b.CreationTime ≤ a.CreationTime

instance : DecidableRel creationGeG := fun a b => Int.decLe _ _

instance : IsTotal LogGroup creationGeG :=
  ⟨fun a b => le_total b.CreationTime a.CreationTime⟩

instance : IsTrans LogGroup creationGeG := ⟨fun _ _ _ h1 h2 => le_trans h2 h1⟩

/-- Descending creation time for log streams. -/
def creationGeS (a b : LogStream) : Prop := b.CreationTime ≤ a.CreationTime

instance : DecidableRel creationGeS := fun a b => Int.decLe _ _

instance : IsTotal LogStream creationGeS :=
  ⟨fun a b => le_total b.CreationTime a.CreationTime⟩

instance : IsTrans LogStream creationGeS := ⟨fun _ _ _ h1 h2 => le_trans h2 h1⟩

/-- `suggestData` (datasource.go:470-473). -/
structure suggestData where
  Text : String
  Value : String
deriving DecidableEq

/-- `transformToTable` (datasource.go:551-566). -/
def transformToTable (data : List suggestData) : Table :=
  { Columns := ["text", "value"], Rows := data.map fun r => [r.Text, r.Value] }

/-- `metricFindQuery` (datasource.go:475-549) after a successful remote listing:
accumulate pages under the 100-entry safety limit, sort by creation time
descending, map each entry to a `(name, name)` suggestion, and wrap the
two-column table in a single result.  The prefix parameters only shape the
remote request and so live inside the page model. -/
def metricFindQuery (subtype : String) (groupPages : List (List LogGroup))
    (streamPages : List (List LogStream)) : List QueryResult :=
  let data : List suggestData :=
    if subtype = "log_group_names" then
      (List.insertionSort creationGeG (suggestLoop [] groupPages)).map fun g =>
        ⟨g.LogGroupName, g.LogGroupName⟩
    else if subtype = "log_stream_names" then
      (List.insertionSort creationGeS (suggestLoop [] streamPages)).map fun g =>
        ⟨g.LogStreamName, g.LogStreamName⟩
    else []
  [{ RefId := "metricFindQuery", Tables := [transformToTable data] }]

/-! ## Theorems

Claim-level theorems (with their counterexamples and witnesses) follow; the
lemmas in between are shared scaffolding. -/

/-- The length of a normally returned record list. -/
def goResultLen : GoResult (List FilteredLogEvent) → Option Nat
  | .ok l => some l.length
  | _ => none

lemma pagesSize_nil : pagesSize [] = 0 := rfl

lemma pagesSize_cons (p : List FilteredLogEvent) (ps : List (List FilteredLogEvent)) :
    pagesSize (p :: ps) = p.length + pagesSize ps := by
  simp [pagesSize]

/-- When the requested limit exceeds the safety cap and more than 10000 records
are available, the loop returns normally with more than 10000 records,
overshooting the cap by at most one page. -/
lemma eventsLoop_cap (M : Nat) (lim : Int) (hlim : 10000 < lim) :
    ∀ (pages : List (List FilteredLogEvent)) (acc : List FilteredLogEvent),
      acc.length ≤ 10000 → 10000 < acc.length + pagesSize pages →
      (∀ p ∈ pages, p.length ≤ M) →
      ∃ out, eventsLoop (some lim) acc pages = .ok out ∧
        10000 < out.length ∧ out.length ≤ 10000 + M := by
  intro pages
  induction pages with
  | nil =>
    intro acc h1 h2 h3
    rw [pagesSize_nil] at h2
    omega
  | cons page rest ih =>
    intro acc h1 h2 h3
    rw [pagesSize_cons] at h2
    by_cases hcap : (acc ++ page).length > 10000
    · refine ⟨acc ++ page, ?_, hcap, ?_⟩
      · have hcap2 : 10000 < acc.length + page.length := by
          simpa [List.length_append] using hcap
        simp [eventsLoop, hcap2]
      · have hp := h3 page (by simp)
        simp only [List.length_append]
        omega
    · push_neg at hcap
      have hcap2 : ¬ 10000 < acc.length + page.length := by
        simp only [List.length_append] at hcap
        omega
      have hnot2 : ¬ lim ≤ (acc.length : Int) + (page.length : Int) := by
        simp only [List.length_append] at hcap
        push_neg
        have hc : (acc.length : Int) + (page.length : Int) ≤ 10000 := by
          exact_mod_cast Nat.le_of_lt_succ (by omega)
        omega
      obtain ⟨out, hout, hgt, hle⟩ := ih (acc ++ page)
        (by simp only [List.length_append] at hcap ⊢; omega)
        (by simp only [List.length_append]; omega)
        (fun p hp => h3 p (by simp [hp]))
      refine ⟨out, ?_, hgt, hle⟩
      simpa [eventsLoop, hcap2, hnot2] using hout

/-- When the total available stays at or below the safety cap and reaches the
requested limit, the loop returns exactly the pages up to the first one whose
cumulative count reaches the limit. -/
lemma eventsLoop_limit (lim : Int) :
    ∀ (pages : List (List FilteredLogEvent)) (acc : List FilteredLogEvent),
      (acc.length : Int) < lim → acc.length + pagesSize pages ≤ 10000 →
      lim ≤ (acc.length : Int) + (pagesSize pages : Int) →
      ∃ out k, eventsLoop (some lim) acc pages = .ok out ∧
        out = acc ++ (pages.take (k + 1)).flatten ∧
        ((acc.length : Int) + (((pages.take k).flatten).length : Int) < lim) ∧
        lim ≤ (out.length : Int) := by
  intro pages
  induction pages with
  | nil =>
    intro acc h1 h2 h3
    rw [pagesSize_nil] at h3
    omega
  | cons page rest ih =>
    intro acc h1 h2 h3
    rw [pagesSize_cons] at h2 h3
    have hcap : ¬ (acc ++ page).length > 10000 := by
      simp only [List.length_append]
      omega
    have hcap2 : ¬ 10000 < acc.length + page.length := by
      simpa [List.length_append] using hcap
    by_cases hlim : ((acc ++ page).length : Int) ≥ lim
    · refine ⟨acc ++ page, 0, ?_, ?_, ?_, hlim⟩
      · have hlim2 : lim ≤ (acc.length : Int) + (page.length : Int) := by
          have h := hlim
          simp only [List.length_append] at h
          push_cast at h
          omega
        simp [eventsLoop, hcap2, hlim2]
      · simp
      · simpa using h1
    · obtain ⟨out, k, hout, hsh, hlt, hge⟩ := ih (acc ++ page)
        (by push_neg at hlim; exact hlim)
        (by simp only [List.length_append]; omega)
        (by push_cast at h3 ⊢; simp only [List.length_append]; push_cast; omega)
      refine ⟨out, k + 1, ?_, ?_, ?_, hge⟩
      · have hlim2 : ¬ lim ≤ (acc.length : Int) + (page.length : Int) := by
          push_neg at hlim ⊢
          simp only [List.length_append] at hlim
          push_cast at hlim
          omega
        simpa [eventsLoop, hcap2, hlim2] using hout
      · simpa [List.append_assoc] using hsh
      · simp only [List.take_succ_cons, List.flatten_cons, List.length_append] at hlt ⊢
        push_cast at hlt ⊢
        omega

lemma pagesSize_mapped (s : String) (gp : List (List OutputLogEvent)) :
    pagesSize (gp.map (fun p => p.map (toFilteredEvent s))) = (gp.map List.length).sum := by
  simp [pagesSize, Function.comp_def]

/-- C1 (amended): when the total available exceeds 10000 and the requested
limit is larger than 10000, either strategy of the pagination engine returns
normally (no error) with MORE than 10000 records — the loop stops at the first
page that brings the accumulated count above 10000, so the result exceeds
10000 by at most the size of one page, and is never exactly 10000. -/
theorem C1_theorem (input : FilterLogEventsInput) (sf : Bool)
    (filterPages : List (List FilteredLogEvent)) (getPages : List (List OutputLogEvent))
    (lim : Int) (M : Nat) (hL : input.Limit = some lim) (hlim : 10000 < lim) :
    (∀ fp, input.FilterPattern = some fp → (fp ≠ "" ∨ input.LogStreamNames.length ≠ 1) →
      10000 < pagesSize filterPages → (∀ p ∈ filterPages, p.length ≤ M) →
      ∃ out, getLogEvent input sf filterPages getPages = .ok out ∧
        10000 < out.length ∧ out.length ≤ 10000 + M) ∧
    (∀ s, input.FilterPattern = some "" → input.LogStreamNames = [s] →
      10000 < (getPages.map List.length).sum → (∀ p ∈ getPages, p.length ≤ M) →
      ∃ out, getLogEvent input sf filterPages getPages = .ok out ∧
        10000 < out.length ∧ out.length ≤ 10000 + M) := by
  constructor
  · intro fp hFP hcond htot hbound
    have h := eventsLoop_cap M lim hlim filterPages [] (by simp) (by simpa using htot) hbound
    simpa [getLogEvent, hFP, hL, if_pos hcond] using h
  · intro s hFP hstreams htot hbound
    have htot2 : 10000 < pagesSize (getPages.map (fun p => p.map (toFilteredEvent s))) := by
      rw [pagesSize_mapped]
      exact htot
    have hbound2 : ∀ p ∈ getPages.map (fun p => p.map (toFilteredEvent s)), p.length ≤ M := by
      intro p hp
      simp only [List.mem_map] at hp
      obtain ⟨q, hq, rfl⟩ := hp
      simpa using hbound q hq
    have h := eventsLoop_cap M lim hlim (getPages.map (fun p => p.map (toFilteredEvent s))) []
      (by simp) (by simpa using htot2) hbound2
    simpa [getLogEvent, hFP, hstreams, hL] using h

/-- The all-nil event used by concrete examples. -/
def ev0 : FilteredLogEvent := {}

lemma getLogEvent_filter (input : FilterLogEventsInput) (sf : Bool) (fp : String)
    (filterPages : List (List FilteredLogEvent)) (getPages : List (List OutputLogEvent))
    (hFP : input.FilterPattern = some fp)
    (hcond : fp ≠ "" ∨ input.LogStreamNames.length ≠ 1) :
    getLogEvent input sf filterPages getPages = eventsLoop input.Limit [] filterPages := by
  simp only [getLogEvent, hFP]
  rw [if_pos hcond]

lemma getLogEvent_single (input : FilterLogEventsInput) (sf : Bool) (s : String)
    (filterPages : List (List FilteredLogEvent)) (getPages : List (List OutputLogEvent))
    (hFP : input.FilterPattern = some "") (hs : input.LogStreamNames = [s]) :
    getLogEvent input sf filterPages getPages =
      eventsLoop input.Limit [] (getPages.map (fun p => p.map (toFilteredEvent s))) := by
  simp only [getLogEvent, hFP, hs]
  have hc : ¬ (("" : String) ≠ "" ∨ ([s] : List String).length ≠ 1) := by simp
  rw [if_neg hc]

lemma eventsLoop_capStop (limit : Option Int) (acc page : List FilteredLogEvent)
    (rest : List (List FilteredLogEvent)) (h : 10000 < acc.length + page.length) :
    eventsLoop limit acc (page :: rest) = .ok (acc ++ page) := by
  simp [eventsLoop, h]

lemma eventsLoop_continue (lim : Int) (acc page : List FilteredLogEvent)
    (rest : List (List FilteredLogEvent))
    (h1 : ¬ 10000 < acc.length + page.length)
    (h2 : ¬ lim ≤ (acc.length : Int) + (page.length : Int)) :
    eventsLoop (some lim) acc (page :: rest) = eventsLoop (some lim) (acc ++ page) rest := by
  simp [eventsLoop, h1, h2]

lemma eventsLoop_limStop (lim : Int) (acc page : List FilteredLogEvent)
    (rest : List (List FilteredLogEvent))
    (h1 : ¬ 10000 < acc.length + page.length)
    (h2 : lim ≤ (acc.length : Int) + (page.length : Int)) :
    eventsLoop (some lim) acc (page :: rest) = .ok (acc ++ page) := by
  simp [eventsLoop, h1, h2]

/-- C1 counterexample: a filter retrieval with 10001 records available across
two pages and a requested limit of 20000 returns 10001 records, not 10000, so
the record list is not "exactly 10,000". -/
theorem C1_counterexample :
    10000 < pagesSize [List.replicate 10000 ev0, [ev0]] ∧
    goResultLen (getLogEvent { FilterPattern := some "x", Limit := some 20000 } true
      [List.replicate 10000 ev0, [ev0]] []) = some 10001 := by
  constructor
  · rw [pagesSize_cons, pagesSize_cons, pagesSize_nil, List.length_replicate]
    norm_num
  · have h0 : getLogEvent { FilterPattern := some "x", Limit := some 20000 } true
        [List.replicate 10000 ev0, [ev0]] [] =
        eventsLoop (some 20000) [] [List.replicate 10000 ev0, [ev0]] :=
      getLogEvent_filter _ _ "x" _ _ rfl (by simp)
    have h1 : eventsLoop (some 20000) [] [List.replicate 10000 ev0, [ev0]] =
        eventsLoop (some 20000) ([] ++ List.replicate 10000 ev0) [[ev0]] := by
      apply eventsLoop_continue
      · simp only [List.length_nil, List.length_replicate]
        norm_num
      · simp only [List.length_nil, List.length_replicate]
        norm_num
    have h2 : eventsLoop (some 20000) ([] ++ List.replicate 10000 ev0)
        [[ev0]] = .ok (([] ++ List.replicate 10000 ev0) ++ [ev0]) := by
      apply eventsLoop_capStop
      simp only [List.nil_append, List.length_replicate, List.length_cons, List.length_nil]
      norm_num
    rw [h0, h1, h2]
    simp only [goResultLen, List.nil_append, List.length_append, List.length_replicate,
      List.length_cons, List.length_nil]

/-- C1 witness: the amended theorem applied to the 10001-record filter
retrieval. -/
theorem C1_witness :
    ∃ out, getLogEvent { FilterPattern := some "x", Limit := some 20000 } true
        [List.replicate 10000 ev0, [ev0]] [] = .ok out ∧
      10000 < out.length ∧ out.length ≤ 10000 + 10000 :=
  (C1_theorem { FilterPattern := some "x", Limit := some 20000 } true
      [List.replicate 10000 ev0, [ev0]] [] 20000 10000 rfl (by norm_num)).1
    "x" rfl (by simp)
    (by rw [pagesSize_cons, pagesSize_cons, pagesSize_nil, List.length_replicate]; norm_num)
    (by intro p hp
        simp only [List.mem_cons, List.not_mem_nil, or_false] at hp
        rcases hp with h | h
        · subst h
          exact le_of_eq (List.length_replicate _ _)
        · subst h
          simp)

/-- C2 (amended): for requested `Limit = 5` with at least 5 records available and
the total below the safety cap, either strategy returns — in retrieval order —
exactly the whole pages up to the first page at which the accumulated count
reaches 5.  The engine returns at least 5 records, but a page straddling the
limit is returned whole, so the count is exactly 5 only when a page boundary
falls at 5. -/
theorem C2_theorem (input : FilterLogEventsInput) (sf : Bool)
    (filterPages : List (List FilteredLogEvent)) (getPages : List (List OutputLogEvent))
    (hL : input.Limit = some 5) :
    (∀ fp, input.FilterPattern = some fp → (fp ≠ "" ∨ input.LogStreamNames.length ≠ 1) →
      5 ≤ pagesSize filterPages → pagesSize filterPages ≤ 10000 →
      ∃ out k, getLogEvent input sf filterPages getPages = .ok out ∧
        out = (filterPages.take (k + 1)).flatten ∧
        (filterPages.take k).flatten.length < 5 ∧ 5 ≤ out.length) ∧
    (∀ s, input.FilterPattern = some "" → input.LogStreamNames = [s] →
      5 ≤ (getPages.map List.length).sum → (getPages.map List.length).sum ≤ 10000 →
      ∃ out k, getLogEvent input sf filterPages getPages = .ok out ∧
        out = ((getPages.map (fun p => p.map (toFilteredEvent s))).take (k + 1)).flatten ∧
        ((getPages.map (fun p => p.map (toFilteredEvent s))).take k).flatten.length < 5 ∧
        5 ≤ out.length) := by
  constructor
  · intro fp hFP hcond hge hcap
    obtain ⟨out, k, hout, hsh, hlt, hge2⟩ := eventsLoop_limit 5 filterPages []
      (by simp) (by simpa using hcap)
      (by
        have h5 : (5 : Int) ≤ (pagesSize filterPages : Int) := by exact_mod_cast hge
        simpa using h5)
    refine ⟨out, k, ?_, by simpa using hsh, ?_, ?_⟩
    · rw [getLogEvent_filter input sf fp filterPages getPages hFP hcond, hL]
      exact hout
    · have h := hlt
      simp only [List.length_nil, Nat.cast_zero, zero_add] at h
      exact_mod_cast h
    · exact_mod_cast hge2
  · intro s hFP hstreams hge hcap
    have hsz : pagesSize (getPages.map (fun p => p.map (toFilteredEvent s))) =
        (getPages.map List.length).sum := pagesSize_mapped s getPages
    obtain ⟨out, k, hout, hsh, hlt, hge2⟩ := eventsLoop_limit 5
      (getPages.map (fun p => p.map (toFilteredEvent s))) []
      (by simp)
      (by rw [hsz]; simpa using hcap)
      (by
        have h5 : (5 : Int) ≤
            (pagesSize (getPages.map (fun p => p.map (toFilteredEvent s))) : Int) := by
          exact_mod_cast hsz ▸ hge
        simpa using h5)
    refine ⟨out, k, ?_, by simpa using hsh, ?_, ?_⟩
    · rw [getLogEvent_single input sf s filterPages getPages hFP hstreams, hL]
      exact hout
    · have h := hlt
      simp only [List.length_nil, Nat.cast_zero, zero_add] at h
      exact_mod_cast h
    · exact_mod_cast hge2

/-- C2 counterexample: with `Limit = 5`, a filter retrieval delivering pages of
3 and then 5 records (8 available, below the cap) returns all 8 records, not
exactly 5 — the straddling page is kept whole. -/
theorem C2_counterexample :
    (5 ≤ pagesSize [[ev0, ev0, ev0], [ev0, ev0, ev0, ev0, ev0]] ∧
      pagesSize [[ev0, ev0, ev0], [ev0, ev0, ev0, ev0, ev0]] ≤ 10000) ∧
    goResultLen (getLogEvent { FilterPattern := some "x", Limit := some 5 } true
      [[ev0, ev0, ev0], [ev0, ev0, ev0, ev0, ev0]] []) = some 8 := by
  decide

/-- C2 witness: the amended theorem applied to the pages-of-3-then-5 retrieval. -/
theorem C2_witness :
    ∃ out k, getLogEvent { FilterPattern := some "x", Limit := some 5 } true
        [[ev0, ev0, ev0], [ev0, ev0, ev0, ev0, ev0]] [] = .ok out ∧
      out = (([[ev0, ev0, ev0], [ev0, ev0, ev0, ev0, ev0]] :
        List (List FilteredLogEvent)).take (k + 1)).flatten ∧
      (([[ev0, ev0, ev0], [ev0, ev0, ev0, ev0, ev0]] :
        List (List FilteredLogEvent)).take k).flatten.length < 5 ∧ 5 ≤ out.length :=
  (C2_theorem { FilterPattern := some "x", Limit := some 5 } true
      [[ev0, ev0, ev0], [ev0, ev0, ev0, ev0, ev0]] [] rfl).1
    "x" rfl (by simp) (by decide) (by decide)

lemma eventsLoop_mem (P : FilteredLogEvent → Prop) (limit : Option Int) :
    ∀ (pages : List (List FilteredLogEvent)) (acc : List FilteredLogEvent),
      (∀ e ∈ acc, P e) → (∀ p ∈ pages, ∀ e ∈ p, P e) →
      ∀ out, eventsLoop limit acc pages = .ok out → ∀ e ∈ out, P e := by
  intro pages
  induction pages with
  | nil =>
    intro acc hacc _ out hout e he
    simp only [eventsLoop, GoResult.ok.injEq] at hout
    subst hout
    exact hacc e he
  | cons page rest ih =>
    intro acc hacc hpages out hout e he
    have hacc2 : ∀ x ∈ acc ++ page, P x := by
      intro x hx
      rcases List.mem_append.mp hx with h | h
      · exact hacc x h
      · exact hpages page (by simp) x h
    simp only [eventsLoop] at hout
    split at hout
    · simp only [GoResult.ok.injEq] at hout
      subst hout
      exact hacc2 e he
    · split at hout
      · cases hout
      · split at hout
        · simp only [GoResult.ok.injEq] at hout
          subst hout
          exact hacc2 e he
        · exact ih (acc ++ page) hacc2 (fun p hp => hpages p (by simp [hp])) out hout e he

/-- C7: with an empty filter pattern and exactly one explicit stream name the
engine uses the single-stream strategy — the result is the accumulation of the
direct stream-read pages (which carry no stream name) with the requested stream
name attached to every synthesized record — and in every other case (non-empty
pattern, or a stream-name count different from one) the filter strategy is
used. -/
theorem C7_theorem (input : FilterLogEventsInput) (sf : Bool)
    (filterPages : List (List FilteredLogEvent)) (getPages : List (List OutputLogEvent)) :
    (∀ s, input.FilterPattern = some "" → input.LogStreamNames = [s] →
      getLogEvent input sf filterPages getPages =
        eventsLoop input.Limit [] (getPages.map (fun p => p.map (toFilteredEvent s))) ∧
      ∀ out, getLogEvent input sf filterPages getPages = .ok out →
        ∀ e ∈ out, e.LogStreamName = some s) ∧
    (∀ fp, input.FilterPattern = some fp → (fp ≠ "" ∨ input.LogStreamNames.length ≠ 1) →
      getLogEvent input sf filterPages getPages = eventsLoop input.Limit [] filterPages) := by
  constructor
  · intro s hFP hs
    have heq := getLogEvent_single input sf s filterPages getPages hFP hs
    refine ⟨heq, ?_⟩
    intro out hout e he
    rw [heq] at hout
    refine eventsLoop_mem (fun e => e.LogStreamName = some s) input.Limit
      (getPages.map (fun p => p.map (toFilteredEvent s))) [] (by simp) ?_ out hout e he
    intro p hp x hx
    simp only [List.mem_map] at hp
    obtain ⟨q, hq, rfl⟩ := hp
    simp only [List.mem_map] at hx
    obtain ⟨y, hy, rfl⟩ := hx
    rfl
  · intro fp hFP hcond
    exact getLogEvent_filter input sf fp filterPages getPages hFP hcond

/-- C7 witness: a single-stream retrieval of stream `"s1"` over one page of two
events returns records that all carry stream name `"s1"`, and a non-empty
pattern selects the filter strategy. -/
theorem C7_witness :
    (getLogEvent { FilterPattern := some "", LogStreamNames := ["s1"], Limit := some 100 } true []
        [[{ Message := some "m1" }, { Message := some "m2" }]] =
      eventsLoop (some 100)
        [] ([[{ Message := some "m1" }, { Message := some "m2" }]].map
          (fun p => p.map (toFilteredEvent "s1"))) ∧
      ∀ out, getLogEvent { FilterPattern := some "", LogStreamNames := ["s1"], Limit := some 100 }
          true [] [[{ Message := some "m1" }, { Message := some "m2" }]] = .ok out →
        ∀ e ∈ out, e.LogStreamName = some "s1") :=
  (C7_theorem { FilterPattern := some "", LogStreamNames := ["s1"], Limit := some 100 } true []
      [[{ Message := some "m1" }, { Message := some "m2" }]]).1 "s1" rfl rfl

lemma eventsLoop_nilLimit (acc page : List FilteredLogEvent)
    (rest : List (List FilteredLogEvent)) (h : ¬ 10000 < acc.length + page.length) :
    eventsLoop none acc (page :: rest) = .panic := by
  simp [eventsLoop, h]

/-- C9 (amended): `getLogEvent` dereferences `FilterPattern` unconditionally
before the strategy choice, so a nil `FilterPattern` panics on every call; a nil
`Limit` is dereferenced inside the page callback only after the safety-cap
check, so it panics whenever the first delivered page does not by itself exceed
10000 records (which under the service's documented page sizes is every call
that delivers a page), but a first page above the cap returns normally without
ever dereferencing `Limit`. -/
theorem C9_theorem (input : FilterLogEventsInput) (sf : Bool)
    (filterPages : List (List FilteredLogEvent)) (getPages : List (List OutputLogEvent)) :
    (input.FilterPattern = none → getLogEvent input sf filterPages getPages = .panic) ∧
    (∀ fp page rest, input.Limit = none → input.FilterPattern = some fp →
      (fp ≠ "" ∨ input.LogStreamNames.length ≠ 1) → filterPages = page :: rest →
      page.length ≤ 10000 → getLogEvent input sf filterPages getPages = .panic) ∧
    (∀ s gpage grest, input.Limit = none → input.FilterPattern = some "" →
      input.LogStreamNames = [s] → getPages = gpage :: grest →
      gpage.length ≤ 10000 → getLogEvent input sf filterPages getPages = .panic) := by
  refine ⟨?_, ?_, ?_⟩
  · intro h
    simp [getLogEvent, h]
  · intro fp page rest hL hFP hcond hpages hlen
    rw [getLogEvent_filter input sf fp filterPages getPages hFP hcond, hL, hpages]
    exact eventsLoop_nilLimit [] page rest (by simpa using hlen)
  · intro s gpage grest hL hFP hs hpages hlen
    rw [getLogEvent_single input sf s filterPages getPages hFP hs, hL, hpages]
    exact eventsLoop_nilLimit [] (gpage.map (toFilteredEvent s)) _ (by simpa using hlen)

/-- C9 counterexample: a retrieval whose target omits `Limit` (nil pointer) but
whose first page carries 10001 records returns those records normally — no
panic and no error — because the safety-cap check stops the loop before the
`Limit` dereference; the dereference is therefore not unconditional and a nil
`Limit` is not a precondition of every call. -/
theorem C9_counterexample :
    getLogEvent { FilterPattern := some "x", Limit := none } true
      [List.replicate 10001 ev0] [] = .ok (List.replicate 10001 ev0) := by
  have h0 := getLogEvent_filter { FilterPattern := some "x", Limit := none } true "x"
    [List.replicate 10001 ev0] [] rfl (by simp)
  rw [h0]
  have h1 := eventsLoop_capStop none [] (List.replicate 10001 ev0) []
    (by simp only [List.length_nil, List.length_replicate]; norm_num)
  rw [h1, List.nil_append]

/-- C9 witness: the amended theorem applied to a nil `FilterPattern` call and to
a nil `Limit` call whose first page holds one record. -/
theorem C9_witness :
    getLogEvent { FilterPattern := none } true [[ev0]] [] = .panic ∧
    getLogEvent { FilterPattern := some "x", Limit := none } true [[ev0]] [] = .panic :=
  ⟨(C9_theorem { FilterPattern := none } true [[ev0]] []).1 rfl,
    (C9_theorem { FilterPattern := some "x", Limit := none } true [[ev0]] []).2.1
      "x" [ev0] [] rfl rfl (by simp) rfl (by simp)⟩

/-! ## Claim C6: legend formatting lemmas

The general statement is over segment lists: a template is any interleaving of
brace-open-free literal text and `\x7b\x7b ws1 name ws2 \x7d\x7d` placeholders
whose padding is a `\s*` run and whose trimmed name has no whitespace or
closing brace.  `replaceLoop` rewrites every placeholder occurrence and leaves
the literals untouched. -/

lemma goSpace_reSpace_false (c : Char) (h : goSpace c = false) : reSpace c = false := by
  simp only [goSpace, decide_eq_false_iff_not] at h
  simp only [reSpace, decide_eq_false_iff_not]
  push_neg at h ⊢
  exact ⟨h.2.2.2.2.2.1, h.1, h.2.1, h.2.2.2.1, h.2.2.2.2.1⟩

lemma reSpace_goSpace (c : Char) (h : reSpace c = true) : goSpace c = true := by
  simp only [reSpace, decide_eq_true_eq] at h
  rcases h with rfl | rfl | rfl | rfl | rfl <;> decide

lemma reSpace_ne_rb (c : Char) (h : reSpace c = true) : c ≠ '}' := by
  simp only [reSpace, decide_eq_true_eq] at h
  rcases h with rfl | rfl | rfl | rfl | rfl <;> decide

lemma hasPrefixBB_ne (c : Char) (l : List Char) (h : c ≠ '}') :
    hasPrefixBB (c :: l) = false := by
  cases l with
  | nil => rfl
  | cons b bs => simp [hasPrefixBB, h]

lemma wsRun_nameChar (c : Char) (l : List Char) (h : reSpace c = false) :
    wsRun (c :: l) = 0 := by
  simp [wsRun, List.takeWhile_cons, h]

lemma wsRun_ws_append : ∀ (w : List Char) (c : Char) (l : List Char),
    (∀ x ∈ w, reSpace x = true) → reSpace c = false →
    wsRun (w ++ c :: l) = w.length := by
  intro w
  induction w with
  | nil =>
    intro c l _ hc
    rw [List.nil_append]
    exact wsRun_nameChar c l hc
  | cons a w' ih =>
    intro c l hw hc
    have ha : reSpace a = true := hw a (by simp)
    rw [List.cons_append, wsRun, List.takeWhile_cons, if_pos ha]
    simp only [List.length_cons]
    have h2 := ih c l (fun x hx => hw x (by simp [hx])) hc
    rw [wsRun] at h2
    rw [h2]

lemma trailSearch_nameChar (c : Char) (l : List Char) (h1 : reSpace c = false)
    (h2 : c ≠ '}') : trailSearch (c :: l) = none := by
  rw [trailSearch, wsRun_nameChar c l h1]
  simp [trailSearchAux, hasPrefixBB_ne c l h2]

lemma trailSearchAux_hit (n : Nat) (r : List Char) (h : hasPrefixBB (r.drop n) = true) :
    trailSearchAux n r = some n := by
  cases n with
  | zero =>
    rw [List.drop_zero] at h
    simp [trailSearchAux, h]
  | succ k => simp [trailSearchAux, h]

lemma trailSearch_ws (w2 l : List Char) (hw2 : ∀ c ∈ w2, reSpace c = true) :
    trailSearch (w2 ++ '}' :: '}' :: l) = some w2.length := by
  have hws : wsRun (w2 ++ '}' :: '}' :: l) = w2.length :=
    wsRun_ws_append w2 '}' ('}' :: l) hw2 (by decide)
  rw [trailSearch, hws]
  refine trailSearchAux_hit w2.length _ ?_
  rw [List.drop_left]
  simp [hasPrefixBB]

lemma contentSearch_hit (k : Nat) (a : Char) (X : List Char) (hna : ¬ a = '\n') (t : Nat)
    (ht : trailSearch X = some t) :
    contentSearch k (a :: X) = some (k + 1 + t + 2) := by
  simp [contentSearch, hna, ht]

lemma contentSearch_step (k : Nat) (a : Char) (X : List Char) (hna : ¬ a = '\n')
    (ht : trailSearch X = none) :
    contentSearch k (a :: X) = contentSearch (k + 1) X := by
  simp [contentSearch, hna, ht]

lemma contentSearch_name : ∀ (cs : List Char) (k : Nat) (w2 l : List Char), cs ≠ [] →
    (∀ c ∈ cs, goSpace c = false ∧ c ≠ '}') → (∀ c ∈ w2, reSpace c = true) →
    contentSearch k (cs ++ (w2 ++ '}' :: '}' :: l)) =
      some (k + cs.length + w2.length + 2) := by
  intro cs
  induction cs with
  | nil =>
    intro k w2 l h _ _
    exact absurd rfl h
  | cons a cs' ih =>
    intro k w2 l _ hn hw2
    have ha := hn a (by simp)
    have hna : ¬ a = '\n' := by
      intro h
      rw [h] at ha
      exact absurd ha.1 (by decide)
    rw [List.cons_append]
    cases cs' with
    | nil =>
      rw [List.nil_append, contentSearch_hit k a _ hna w2.length (trailSearch_ws w2 l hw2)]
      congr 1
    | cons b cs'' =>
      have hb := hn b (by simp)
      have htr : trailSearch ((b :: cs'') ++ (w2 ++ '}' :: '}' :: l)) = none := by
        rw [List.cons_append]
        exact trailSearch_nameChar b _ (goSpace_reSpace_false b hb.1) hb.2
      rw [contentSearch_step k a _ hna htr,
        ih (k + 1) w2 l (by simp) (fun c hc => hn c (by simp [hc])) hw2]
      congr 1
      simp only [List.length_cons]
      omega

lemma matchAfterAux_hit (n : Nat) (r : List Char) (m : Nat)
    (h : contentSearch 0 (r.drop n) = some m) : matchAfterAux n r = some (n + m) := by
  cases n with
  | zero =>
    rw [List.drop_zero] at h
    simp [matchAfterAux, h]
  | succ k => simp [matchAfterAux, h]

lemma matchAfter_ph (w1 nm w2 t : List Char)
    (hw1 : ∀ c ∈ w1, reSpace c = true) (hne : nm ≠ [])
    (hnm : ∀ c ∈ nm, goSpace c = false ∧ c ≠ '}') (hw2 : ∀ c ∈ w2, reSpace c = true) :
    matchAfterBraces (w1 ++ (nm ++ (w2 ++ '}' :: '}' :: t))) =
      some (w1.length + nm.length + w2.length + 2) := by
  obtain ⟨c, cs, rfl⟩ := List.exists_cons_of_ne_nil hne
  have hc := hnm c (by simp)
  have hcr : reSpace c = false := goSpace_reSpace_false c hc.1
  have hws : wsRun (w1 ++ ((c :: cs) ++ (w2 ++ '}' :: '}' :: t))) = w1.length := by
    have hshape : w1 ++ ((c :: cs) ++ (w2 ++ '}' :: '}' :: t)) =
        w1 ++ c :: (cs ++ (w2 ++ '}' :: '}' :: t)) := by simp
    rw [hshape]
    exact wsRun_ws_append w1 c (cs ++ (w2 ++ '}' :: '}' :: t)) hw1 hcr
  have hdrop : (w1 ++ ((c :: cs) ++ (w2 ++ '}' :: '}' :: t))).drop w1.length =
      (c :: cs) ++ (w2 ++ '}' :: '}' :: t) := by
    rw [List.drop_left]
  have hcontent : contentSearch 0 ((c :: cs) ++ (w2 ++ '}' :: '}' :: t)) =
      some (0 + (c :: cs).length + w2.length + 2) :=
    contentSearch_name (c :: cs) 0 w2 t (by simp) hnm hw2
  rw [matchAfterBraces, hws,
    matchAfterAux_hit w1.length _ _ (by rw [hdrop]; exact hcontent)]
  congr 1
  simp only [List.length_cons]
  omega

lemma replaceLoopF_nil (kv : List (String × String)) (fuel : Nat) :
    replaceLoopF kv fuel [] = [] := by
  cases fuel <;> simp [replaceLoopF]

lemma replaceLoopF_braces (kv : List (String × String)) (fuel : Nat) (rest : List Char)
    (n : Nat) (hmatch : matchAfterBraces rest = some n) :
    replaceLoopF kv (fuel + 1) ('{' :: '{' :: rest) =
      legendCallback kv ('{' :: '{' :: rest.take n) ++ replaceLoopF kv fuel (rest.drop n) := by
  simp [replaceLoopF, hmatch]

lemma replaceLoopF_copy (kv : List (String × String)) :
    ∀ (s t : List Char) (fuel : Nat), (∀ c ∈ s, c ≠ '{') →
      s.length + t.length ≤ fuel →
      replaceLoopF kv fuel (s ++ t) = s ++ replaceLoopF kv (fuel - s.length) t := by
  intro s
  induction s with
  | nil =>
    intro t fuel _ _
    simp
  | cons c s' ih =>
    intro t fuel hs hlen
    have hc : ¬ c = '{' := hs c (by simp)
    cases fuel with
    | zero =>
      exfalso
      simp only [List.length_cons] at hlen
      omega
    | succ f =>
      rw [List.cons_append]
      have hstep : replaceLoopF kv (f + 1) (c :: (s' ++ t)) =
          c :: replaceLoopF kv f (s' ++ t) := by
        simp [replaceLoopF, hc]
      rw [hstep, ih t f (fun x hx => hs x (by simp [hx])) (by
        simp only [List.length_cons] at hlen
        omega)]
      simp [Nat.succ_sub_succ]

lemma removeFirst_open (rest : List Char) :
    removeFirst ['{', '{'] ('{' :: '{' :: rest) = rest := by
  simp [removeFirst, List.isPrefixOf]

lemma removeFirst_close : ∀ (l rest : List Char), (∀ c ∈ l, c ≠ '}') →
    removeFirst ['}', '}'] (l ++ '}' :: '}' :: rest) = l ++ rest := by
  intro l
  induction l with
  | nil =>
    intro rest _
    simp [removeFirst, List.isPrefixOf]
  | cons c l' ih =>
    intro rest h
    have hc : ¬ ('}' = c) := fun h' => h c (by simp) h'.symm
    have hpre : (['}', '}'].isPrefixOf (c :: (l' ++ '}' :: '}' :: rest))) = false := by
      simp [List.isPrefixOf, hc]
    have hgoal : removeFirst ['}', '}'] (c :: (l' ++ '}' :: '}' :: rest)) =
        c :: removeFirst ['}', '}'] (l' ++ '}' :: '}' :: rest) := by
      rw [removeFirst, if_neg (by simp [hpre])]
    rw [List.cons_append, hgoal, ih rest (fun x hx => h x (by simp [hx]))]
    rfl

lemma dropWhile_ws_append : ∀ (w : List Char) (c : Char) (l : List Char),
    (∀ x ∈ w, goSpace x = true) → goSpace c = false →
    List.dropWhile goSpace (w ++ c :: l) = c :: l := by
  intro w
  induction w with
  | nil =>
    intro c l _ hc
    rw [List.nil_append]
    exact List.dropWhile_cons_of_neg (by simp [hc])
  | cons a w' ih =>
    intro c l hw hc
    rw [List.cons_append, List.dropWhile_cons_of_pos (hw a (by simp)),
      ih c l (fun x hx => hw x (by simp [hx])) hc]

lemma trimSpace_ws (w1 nm w2 : List Char) (hw1 : ∀ c ∈ w1, goSpace c = true)
    (hne : nm ≠ []) (hnm : ∀ c ∈ nm, goSpace c = false)
    (hw2 : ∀ c ∈ w2, goSpace c = true) :
    trimSpace (w1 ++ (nm ++ w2)) = nm := by
  obtain ⟨c, cs, rfl⟩ := List.exists_cons_of_ne_nil hne
  have h1 : List.dropWhile goSpace (w1 ++ ((c :: cs) ++ w2)) = (c :: cs) ++ w2 := by
    have hshape : w1 ++ ((c :: cs) ++ w2) = w1 ++ c :: (cs ++ w2) := by simp
    rw [hshape, dropWhile_ws_append w1 c (cs ++ w2) hw1 (hnm c (by simp))]
    exact (List.cons_append c cs w2).symm
  have hrevne : (c :: cs).reverse ≠ [] := by simp
  obtain ⟨d, ds, hds⟩ := List.exists_cons_of_ne_nil hrevne
  have hd : goSpace d = false := by
    refine hnm d ?_
    have hmem : d ∈ (c :: cs).reverse := by
      rw [hds]
      simp
    exact List.mem_reverse.mp hmem
  have hw2r : ∀ x ∈ w2.reverse, goSpace x = true :=
    fun x hx => hw2 x (List.mem_reverse.mp hx)
  rw [trimSpace, h1, List.reverse_append, hds,
    dropWhile_ws_append w2.reverse d ds hw2r hd, ← hds, List.reverse_reverse]

/-- A legend template segment: literal text, or one placeholder
`\x7b\x7b ws1 name ws2 \x7d\x7d` with its padding and name. -/
inductive Seg where
  | lit : List Char → Seg
  | ph : List Char → List Char → List Char → Seg

/-- The characters a segment contributes to the template. -/
def segChars : Seg → List Char
  | Seg.lit s => s
  | Seg.ph w1 nm w2 => '{' :: '{' :: (w1 ++ (nm ++ (w2 ++ ['}', '}'])))

/-- The whole template of a segment list. -/
def segsChars (segs : List Seg) : List Char := (segs.map segChars).flatten

/-- What `ReplaceAllFunc` rewrites a segment to: literal text is untouched; a
placeholder becomes the tag value of its trimmed name when the name is present
and stays verbatim otherwise. -/
def segRender (kv : List (String × String)) : Seg → List Char
  | Seg.lit s => s
  | Seg.ph w1 nm w2 =>
    match lookupKV kv (String.mk nm) with
    | some v => v.data
    | none => '{' :: '{' :: (w1 ++ (nm ++ (w2 ++ ['}', '}'])))

/-- Well-formed segments: literal text has no `'\x7b'`, placeholder padding is
`\s*` text, and the name is non-empty with no `unicode.IsSpace` whitespace and
no closing brace. -/
def SegWF : Seg → Prop
  | Seg.lit s => ∀ c ∈ s, c ≠ '{'
  | Seg.ph w1 nm w2 => (∀ c ∈ w1, reSpace c = true) ∧ nm ≠ [] ∧
      (∀ c ∈ nm, goSpace c = false ∧ c ≠ '}') ∧ (∀ c ∈ w2, reSpace c = true)

instance (sg : Seg) : Decidable (SegWF sg) := by
  cases sg with
  | lit s => exact inferInstanceAs (Decidable (∀ c ∈ s, c ≠ '{'))
  | ph w1 nm w2 =>
    exact inferInstanceAs (Decidable ((∀ c ∈ w1, reSpace c = true) ∧ nm ≠ [] ∧
      (∀ c ∈ nm, goSpace c = false ∧ c ≠ '}') ∧ (∀ c ∈ w2, reSpace c = true)))

lemma legendCallback_ph (kv : List (String × String)) (w1 nm w2 : List Char)
    (hw1 : ∀ c ∈ w1, reSpace c = true) (hne : nm ≠ [])
    (hnm : ∀ c ∈ nm, goSpace c = false ∧ c ≠ '}') (hw2 : ∀ c ∈ w2, reSpace c = true) :
    legendCallback kv ('{' :: '{' :: (w1 ++ (nm ++ (w2 ++ ['}', '}'])))) =
      segRender kv (Seg.ph w1 nm w2) := by
  have hsh : w1 ++ (nm ++ (w2 ++ ['}', '}'])) =
      (w1 ++ (nm ++ w2)) ++ '}' :: '}' :: ([] : List Char) := by
    simp
  have hno : ∀ c ∈ w1 ++ (nm ++ w2), c ≠ '}' := by
    intro c hc
    simp only [List.mem_append] at hc
    rcases hc with h | h | h
    · exact reSpace_ne_rb c (hw1 c h)
    · exact (hnm c h).2
    · exact reSpace_ne_rb c (hw2 c h)
  unfold legendCallback
  rw [removeFirst_open, hsh, removeFirst_close _ _ hno, List.append_nil,
    trimSpace_ws w1 nm w2 (fun c hc => reSpace_goSpace c (hw1 c hc)) hne
      (fun c hc => (hnm c hc).1) (fun c hc => reSpace_goSpace c (hw2 c hc))]
  cases hk : lookupKV kv (String.mk nm) with
  | some v => simp [segRender, hk]
  | none => simp [segRender, hk]

lemma replaceLoopF_ph (kv : List (String × String)) (fuel : Nat) (w1 nm w2 t : List Char)
    (hw1 : ∀ c ∈ w1, reSpace c = true) (hne : nm ≠ [])
    (hnm : ∀ c ∈ nm, goSpace c = false ∧ c ≠ '}') (hw2 : ∀ c ∈ w2, reSpace c = true) :
    replaceLoopF kv (fuel + 1) ('{' :: '{' :: (w1 ++ (nm ++ (w2 ++ '}' :: '}' :: t)))) =
      segRender kv (Seg.ph w1 nm w2) ++ replaceLoopF kv fuel t := by
  have hmatch : matchAfterBraces (w1 ++ (nm ++ (w2 ++ '}' :: '}' :: t))) =
      some (w1.length + nm.length + w2.length + 2) :=
    matchAfter_ph w1 nm w2 t hw1 hne hnm hw2
  rw [replaceLoopF_braces kv fuel _ _ hmatch]
  have hassoc : w1 ++ (nm ++ (w2 ++ '}' :: '}' :: t)) =
      (w1 ++ (nm ++ (w2 ++ ['}', '}']))) ++ t := by
    simp
  have hlenN : (w1 ++ (nm ++ (w2 ++ ['}', '}']))).length =
      w1.length + nm.length + w2.length + 2 := by
    simp only [List.length_append, List.length_cons, List.length_nil]
    omega
  have htake : (w1 ++ (nm ++ (w2 ++ '}' :: '}' :: t))).take
      (w1.length + nm.length + w2.length + 2) = w1 ++ (nm ++ (w2 ++ ['}', '}'])) := by
    rw [hassoc, ← hlenN, List.take_left]
  have hdrop : (w1 ++ (nm ++ (w2 ++ '}' :: '}' :: t))).drop
      (w1.length + nm.length + w2.length + 2) = t := by
    rw [hassoc, ← hlenN, List.drop_left]
  rw [htake, hdrop, legendCallback_ph kv w1 nm w2 hw1 hne hnm hw2]

lemma replaceLoopF_segs (kv : List (String × String)) :
    ∀ (segs : List Seg) (fuel : Nat), (∀ sg ∈ segs, SegWF sg) →
      (segsChars segs).length ≤ fuel →
      replaceLoopF kv fuel (segsChars segs) = (segs.map (segRender kv)).flatten := by
  intro segs
  induction segs with
  | nil =>
    intro fuel _ _
    have h0 : segsChars ([] : List Seg) = [] := by simp [segsChars]
    rw [h0, replaceLoopF_nil]
    simp
  | cons sg rest ih =>
    intro fuel hwf hlen
    have hwfr : ∀ s ∈ rest, SegWF s := fun s hs => hwf s (by simp [hs])
    cases sg with
    | lit s =>
      have hs : ∀ c ∈ s, c ≠ '{' := hwf (Seg.lit s) (by simp)
      have hbase : segsChars (Seg.lit s :: rest) = s ++ segsChars rest := by
        simp [segsChars, segChars]
      rw [hbase] at hlen ⊢
      rw [replaceLoopF_copy kv s (segsChars rest) fuel hs (by
        simp only [List.length_append] at hlen
        exact hlen)]
      rw [ih (fuel - s.length) hwfr (by
        simp only [List.length_append] at hlen
        omega)]
      simp only [List.map_cons, List.flatten_cons, segRender]
    | ph w1 nm w2 =>
      obtain ⟨hw1, hne, hnm, hw2⟩ :
          (∀ c ∈ w1, reSpace c = true) ∧ nm ≠ [] ∧
            (∀ c ∈ nm, goSpace c = false ∧ c ≠ '}') ∧ (∀ c ∈ w2, reSpace c = true) :=
        hwf (Seg.ph w1 nm w2) (by simp)
      have hbase : segsChars (Seg.ph w1 nm w2 :: rest) =
          '{' :: '{' :: (w1 ++ (nm ++ (w2 ++ '}' :: '}' :: segsChars rest))) := by
        simp [segsChars, segChars]
      rw [hbase] at hlen ⊢
      cases fuel with
      | zero =>
        exfalso
        simp only [List.length_cons] at hlen
        omega
      | succ f =>
        have hlen2 : (segsChars rest).length ≤ f := by
          simp only [List.length_cons, List.length_append] at hlen
          omega
        rw [replaceLoopF_ph kv f w1 nm w2 (segsChars rest) hw1 hne hnm hw2,
          ih f hwfr hlen2]
        simp only [List.map_cons, List.flatten_cons]

/-- C6: on every non-empty template built from brace-free literal text and
`\x7b\x7b ws name ws \x7d\x7d` placeholders (arbitrary `\s*` padding, the name
free of `unicode.IsSpace` whitespace and of `\x7d`), `formatLegend` replaces
EVERY placeholder occurrence by the tag value of its whitespace-trimmed name
when the name is present and leaves it verbatim otherwise, keeping the literal
text; tags `host ↦ a` with template `\x7b\x7b host \x7d\x7d` give `a`, an
unmatched `\x7b\x7b other \x7d\x7d` stays verbatim, and an empty template
enumerates the tags as `\x7bkey="value"\x7d`. -/
theorem C6_theorem :
    (∀ (kv : List (String × String)) (segs : List Seg),
      (∀ sg ∈ segs, SegWF sg) → segsChars segs ≠ [] →
      formatLegend kv (String.mk (segsChars segs)) =
        String.mk ((segs.map (segRender kv)).flatten)) ∧
    formatLegend [("host", "a")] "\x7b\x7b host \x7d\x7d" = "a" ∧
    formatLegend [("h", "1"), ("j", "2")] "\x7b\x7bh\x7d\x7d-\x7b\x7b  j \x7d\x7d y" =
      "1-2 y" ∧
    formatLegend [("host", "a")] "\x7b\x7b other \x7d\x7d" = "\x7b\x7b other \x7d\x7d" ∧
    formatLegend [("a", "1")] "" = "\x7ba=\"1\"\x7d" := by
  refine ⟨?_, by decide, by decide, by decide, by decide⟩
  intro kv segs hwf hne
  have hnemp : ¬ (String.mk (segsChars segs) = "") := by
    intro h
    exact hne (congrArg String.data h)
  have hdata : (String.mk (segsChars segs)).data = segsChars segs := rfl
  rw [formatLegend, if_neg hnemp, replaceLoop, hdata,
    replaceLoopF_segs kv segs (segsChars segs).length hwf (le_refl _)]

/-- C6 witness: the theorem applied to tags `h ↦ X` and the four-segment
template `a-\x7b\x7b h \x7d\x7d-\x7b\x7b q \x7d\x7d`: the matched placeholder
is substituted, the unmatched one stays verbatim, the literals are kept. -/
theorem C6_witness :
    formatLegend [("h", "X")] (String.mk (segsChars
      [Seg.lit ['a', '-'], Seg.ph [' '] ['h'] [' '], Seg.lit ['-'],
        Seg.ph [' '] ['q'] [' ']])) =
      String.mk (([Seg.lit ['a', '-'], Seg.ph [' '] ['h'] [' '], Seg.lit ['-'],
        Seg.ph [' '] ['q'] [' ']].map (segRender [("h", "X")])).flatten) :=
  C6_theorem.1 [("h", "X")]
    ([Seg.lit ['a', '-'], Seg.ph [' '] ['h'] [' '], Seg.lit ['-'],
      Seg.ph [' '] ['q'] [' ']]) (by decide) (by decide)

/-! ## Claim C3: grouping of Insights time-series rows -/

/-- The points of the first series named `n` (names are kept unique by
construction). -/
def pointsFor {α : Type} (n : String) : List (TimeSeriesG α) → List (Int × α)
  | [] => []
  | s :: rest => if s.Name = n then s.Points else pointsFor n rest

/-- The `(timestamp, value)` points, in row order, of the rows whose derived
legend name is `n`. -/
def rowsPoints {α : Type} (tsCol valCol lf : String) (parseVal : String → Option α) (v0 : α)
    (n : String) (rows : List (List (String × String))) : List (Int × α) :=
  rows.filterMap fun r =>
    match rowExtract tsCol valCol parseVal v0 r with
    | some (ts, v, kv) => if formatLegend kv lf = n then some (ts, v) else none
    | none => none

lemma appendPoint_names {α : Type} (acc : List (TimeSeriesG α)) (n : String)
    (kv : List (String × String)) (pt : Int × α) :
    (appendPoint acc n kv pt).map TimeSeriesG.Name =
      if n ∈ acc.map TimeSeriesG.Name then acc.map TimeSeriesG.Name
      else acc.map TimeSeriesG.Name ++ [n] := by
  induction acc with
  | nil => simp [appendPoint]
  | cons s rest ih =>
    by_cases h : s.Name = n
    · simp [appendPoint, h]
    · have hne : ¬ n = s.Name := fun hh => h hh.symm
      by_cases h2 : n ∈ rest.map TimeSeriesG.Name
      · simp [appendPoint, h, ih, h2, hne]
      · simp [appendPoint, h, ih, h2, hne]

lemma appendPoint_pointsFor {α : Type} (acc : List (TimeSeriesG α)) (n : String)
    (kv : List (String × String)) (pt : Int × α) (m : String) :
    pointsFor m (appendPoint acc n kv pt) =
      if m = n then pointsFor m acc ++ [pt] else pointsFor m acc := by
  induction acc with
  | nil =>
    by_cases h : m = n
    · simp [appendPoint, pointsFor, h]
    · simp [appendPoint, pointsFor, h, Ne.symm h]
  | cons s rest ih =>
    by_cases hs : s.Name = n
    · by_cases hm : m = n
      · simp [appendPoint, pointsFor, hs, hm, hs.trans hm.symm]
      · have hsm : ¬ s.Name = m := fun hh => hm (hh.symm.trans hs)
        have hnm : ¬ n = m := fun hh => hm hh.symm
        simp [appendPoint, pointsFor, hs, hm, hsm, hnm]
    · by_cases hm : s.Name = m
      · have hmn : ¬ m = n := fun hh => hs (hm.trans hh)
        simp [appendPoint, pointsFor, hs, hm, hmn]
      · simpa [appendPoint, pointsFor, hs, hm] using ih

lemma appendPoint_nodup {α : Type} (acc : List (TimeSeriesG α)) (n : String)
    (kv : List (String × String)) (pt : Int × α)
    (h : (acc.map TimeSeriesG.Name).Nodup) :
    ((appendPoint acc n kv pt).map TimeSeriesG.Name).Nodup := by
  rw [appendPoint_names]
  by_cases hmem : n ∈ acc.map TimeSeriesG.Name
  · simpa [hmem] using h
  · simp only [hmem, if_false]
    simp [List.nodup_append, h, hmem]

lemma insightsFold_char {α : Type} (tsCol valCol lf : String)
    (parseVal : String → Option α) (v0 : α) :
    ∀ (rows : List (List (String × String))) (acc S : List (TimeSeriesG α)),
      insightsFold tsCol valCol lf parseVal v0 acc rows = some S →
      ((acc.map TimeSeriesG.Name).Nodup → (S.map TimeSeriesG.Name).Nodup) ∧
      ∀ n, pointsFor n S = pointsFor n acc ++ rowsPoints tsCol valCol lf parseVal v0 n rows := by
  intro rows
  induction rows with
  | nil =>
    intro acc S h
    simp only [insightsFold, Option.some.injEq] at h
    subst h
    exact ⟨id, fun n => by simp [rowsPoints]⟩
  | cons r rest ih =>
    intro acc S h
    simp only [insightsFold] at h
    cases heq : rowExtract tsCol valCol parseVal v0 r with
    | none => rw [heq] at h; cases h
    | some tvk =>
      obtain ⟨ts, v, kv⟩ := tvk
      rw [heq] at h
      obtain ⟨hnod, hpts⟩ := ih (appendPoint acc (formatLegend kv lf) kv (ts, v)) S h
      constructor
      · intro hacc
        exact hnod (appendPoint_nodup acc _ kv (ts, v) hacc)
      · intro n
        rw [hpts n, appendPoint_pointsFor]
        have hrp : rowsPoints tsCol valCol lf parseVal v0 n (r :: rest) =
            (if formatLegend kv lf = n then [(ts, v)] else []) ++
              rowsPoints tsCol valCol lf parseVal v0 n rest := by
          simp only [rowsPoints, List.filterMap_cons, heq]
          by_cases hfl : formatLegend kv lf = n
          · simp [hfl]
          · simp [hfl]
        rw [hrp]
        by_cases hfl : formatLegend kv lf = n
        · have hnf : n = formatLegend kv lf := hfl.symm
          simp [hnf, List.append_assoc]
        · have hnf : ¬ n = formatLegend kv lf := fun hh => hfl hh.symm
          simp [hnf, hfl]

/-- C3 (amended): the async time-series transform groups rows by their DERIVED
LEGEND NAME, not by their tag set: on success the produced series have pairwise
distinct names, and the series named `n` carries exactly the `(timestamp,
value)` points, in row order, of the rows whose legend derivation yields `n`.
Rows with identical tag sets derive identical names (the derivation is a
function of the tag set) and so share a series, but rows with distinct tag sets
whose derived names coincide are merged into one series as well. -/
theorem C3_theorem {α : Type} (parseVal : String → Option α) (v0 : α)
    (tsCol valCol lf : String) (rows : List (List (String × String)))
    (S : List (TimeSeriesG α))
    (h : insightsTimeSeries tsCol valCol lf parseVal v0 rows = some S) :
    (S.map TimeSeriesG.Name).Nodup ∧
    ∀ n, pointsFor n S = rowsPoints tsCol valCol lf parseVal v0 n rows := by
  obtain ⟨hnod, hpts⟩ := insightsFold_char tsCol valCol lf parseVal v0 rows [] S h
  exact ⟨hnod (by simp), fun n => by simpa [pointsFor] using hpts n⟩

/-- C3 counterexample: two rows with DIFFERENT tag sets (`a ↦ 1` versus
`b ↦ 2`) but the same derived legend name (template `"x"` has no placeholder)
are merged into a single series — so the grouping key is the derived name, not
the tag set, refuting the claim. -/
theorem C3_counterexample :
    insightsTimeSeries "T" "V" "x" (fun _ => none) () [[("a", "1")], [("b", "2")]] =
      some [⟨"x", [("a", "1")], [((0 : Int), ()), ((0 : Int), ())]⟩] ∧
    ([("a", "1")] : List (String × String)) ≠ [("b", "2")] := by
  constructor
  · decide
  · decide

/-- C3 witness: the amended theorem applied to the two-row merge example. -/
theorem C3_witness :
    ∃ S, insightsTimeSeries "T" "V" "x" (fun _ => none) ()
        [[("a", "1")], [("b", "2")]] = some S ∧
      (S.map TimeSeriesG.Name).Nodup ∧
      ∀ n, pointsFor n S =
        rowsPoints "T" "V" "x" (fun _ => none) () n [[("a", "1")], [("b", "2")]] :=
  ⟨[⟨"x", [("a", "1")], [((0 : Int), ()), ((0 : Int), ())]⟩], by decide,
    C3_theorem (fun _ => none) () "T" "V" "x" [[("a", "1")], [("b", "2")]]
      [⟨"x", [("a", "1")], [((0 : Int), ()), ((0 : Int), ())]⟩] (by decide)⟩

/-- C5 (amended): in the async time-series transform the `TimestampColumn` cell
is parsed with the fixed `YYYY-MM-DD HH:MM:SS.sss` layout, but the produced
point's timestamp is `t.Unix() * 1000` — the whole-second part of the parsed
instant times 1000.  The fractional-second digits are required by the layout
and parsed, yet discarded: the timestamp does NOT include the millisecond
part. -/
theorem C5_theorem {α : Type} (parseVal : String → Option α) (v0 : α)
    (tsCol valCol : String) (s : String) (sec : Int) (ms : Nat)
    (h : timeParse s = some (sec, ms)) :
    (∀ (ts : Int) (v : α) (kv : List (String × String)),
      rowStep tsCol valCol parseVal (some (ts, v, kv)) (tsCol, s) =
        some (sec * 1000, v, kv)) ∧
    (∀ lf, insightsTimeSeries tsCol valCol lf parseVal v0 [[(tsCol, s)]] =
      some [⟨formatLegend [] lf, [], [(sec * 1000, v0)]⟩]) := by
  constructor
  · intro ts v kv
    simp [rowStep, h]
  · intro lf
    simp [insightsTimeSeries, insightsFold, rowExtract, rowStep, h, appendPoint]

/-- C5 counterexample: the timestamp cell `1970-01-01 00:00:00.500` denotes the
instant 500 ms after the epoch, but the produced point's timestamp is 0 — the
parsed fractional part (500) is dropped by `t.Unix() * 1000`. -/
theorem C5_counterexample :
    insightsTimeSeries "T" "V" "x" (fun _ => none) ()
        [[("T", "1970-01-01 00:00:00.500")]] = some [⟨"x", [], [((0 : Int), ())]⟩] ∧
    timeParse "1970-01-01 00:00:00.500" = some (0, 500) ∧
    (0 : Int) ≠ 0 * 1000 + 500 := by
  refine ⟨by decide, by decide, by decide⟩

/-- C5 witness: the amended theorem applied to `2001-02-03 04:05:06.789`
(Unix second 981173106): the produced timestamp is 981173106000, the 789
milliseconds are discarded. -/
theorem C5_witness :
    insightsTimeSeries "T" "V" "legend" (fun _ => none) ()
        [[("T", "2001-02-03 04:05:06.789")]] =
      some [⟨formatLegend [] "legend", [], [((981173106 : Int) * 1000, ())]⟩] :=
  (C5_theorem (fun _ => none) () "T" "V" "2001-02-03 04:05:06.789" 981173106 789
    (by decide)).2 "legend"

/-- C4 (amended): submitting an async target with an empty job id issues the
start-job call, and on success the response is exactly one result whose
metadata marshals ONLY the newly assigned job id (`{"QueryId": id}` — there is
no `"Status"` entry, so no status `"Started"` is reported), with no table and
no series rows and no error. -/
theorem C4_theorem (t : Target) (qid : String) (h : t.QueryId = "") :
    handleInsightsQueryStart t (.ok qid) =
      some (.ok [{ RefId := t.RefId, Error := none,
                   MetaJson := some [("QueryId", qid)], Tables := [], Series := [] }]) ∧
    lookupKV [("QueryId", qid)] "Status" = none := by
  constructor
  · simp [handleInsightsQueryStart, h]
  · simp [lookupKV]

/-- C4 counterexample: a successful start for a fresh target marshals metadata
`[("QueryId", "abc")]` — the map contains no `"Status"` key at all, so the
result does not hold status `"Started"` as claimed. -/
theorem C4_counterexample :
    handleInsightsQueryStart { RefId := "A", QueryId := "" } (.ok "abc") =
      some (.ok [{ RefId := "A", Error := none,
                   MetaJson := some [("QueryId", "abc")], Tables := [], Series := [] }]) ∧
    lookupKV [("QueryId", "abc")] "Status" = none := by
  refine ⟨by decide, by decide⟩

/-- C4 witness: the amended theorem applied to a fresh target with ref id
`"R7"` and assigned job id `"job-123"`. -/
theorem C4_witness :
    handleInsightsQueryStart { RefId := "R7", QueryId := "" } (.ok "job-123") =
      some (.ok [{ RefId := "R7", Error := none,
                   MetaJson := some [("QueryId", "job-123")], Tables := [], Series := [] }]) ∧
    lookupKV [("QueryId", "job-123")] "Status" = none :=
  C4_theorem { RefId := "R7", QueryId := "" } "job-123" rfl

/-! ## Claim C8: suggestion queries -/

/-- Total number of entries across a suggestion page list. -/
def suggestSize {β : Type} (pages : List (List β)) : Nat :=
  (pages.map List.length).sum

lemma suggestLoop_capStop {β : Type} (acc page : List β) (rest : List (List β))
    (h : 100 < acc.length + page.length) :
    suggestLoop acc (page :: rest) = acc ++ page := by
  simp [suggestLoop, h]

lemma suggestLoop_continue {β : Type} (acc page : List β) (rest : List (List β))
    (h : ¬ 100 < acc.length + page.length) :
    suggestLoop acc (page :: rest) = suggestLoop (acc ++ page) rest := by
  simp [suggestLoop, h]

lemma suggestLoop_le {β : Type} (M : Nat) :
    ∀ (pages : List (List β)) (acc : List β), acc.length ≤ 100 →
      (∀ p ∈ pages, p.length ≤ M) → (suggestLoop acc pages).length ≤ 100 + M := by
  intro pages
  induction pages with
  | nil =>
    intro acc h1 _
    simp only [suggestLoop]
    omega
  | cons page rest ih =>
    intro acc h1 h2
    have hp := h2 page (by simp)
    by_cases hcap : 100 < acc.length + page.length
    · rw [suggestLoop_capStop acc page rest hcap]
      simp only [List.length_append]
      omega
    · rw [suggestLoop_continue acc page rest hcap]
      exact ih (acc ++ page) (by simp only [List.length_append]; omega)
        (fun p hp2 => h2 p (by simp [hp2]))

lemma suggestLoop_gt {β : Type} :
    ∀ (pages : List (List β)) (acc : List β), 100 < acc.length + suggestSize pages →
      100 < (suggestLoop acc pages).length := by
  intro pages
  induction pages with
  | nil =>
    intro acc h
    simp only [suggestSize, List.map_nil, List.sum_nil, Nat.add_zero] at h
    simpa [suggestLoop] using h
  | cons page rest ih =>
    intro acc h
    simp only [suggestSize, List.map_cons, List.sum_cons] at h
    by_cases hcap : 100 < acc.length + page.length
    · rw [suggestLoop_capStop acc page rest hcap]
      simp only [List.length_append]
      omega
    · rw [suggestLoop_continue acc page rest hcap]
      refine ih (acc ++ page) ?_
      simp only [List.length_append, suggestSize]
      omega

/-- C8 (amended): a suggestion query accumulates pages with a stop check that
runs only after a whole page is appended (the accumulated entries can therefore
EXCEED 100 — pagination stops at the first page that brings the count above
100, and always exceeds 100 when more than 100 entries are available), sorts
the accumulated entries by creation time descending, and returns one result
holding a two-column table (`text`, `value`) whose cells both carry the
resource's name. -/
theorem C8_theorem (gp : List (List LogGroup)) (sp : List (List LogStream)) (M : Nat) :
    (metricFindQuery "log_group_names" gp sp =
      [{ RefId := "metricFindQuery",
         Tables := [{ Columns := ["text", "value"],
                      Rows := (List.insertionSort creationGeG (suggestLoop [] gp)).map
                        (fun g => [g.LogGroupName, g.LogGroupName]) }] }] ∧
      List.Sorted creationGeG (List.insertionSort creationGeG (suggestLoop [] gp)) ∧
      (List.insertionSort creationGeG (suggestLoop [] gp)).Perm (suggestLoop [] gp)) ∧
    (metricFindQuery "log_stream_names" gp sp =
      [{ RefId := "metricFindQuery",
         Tables := [{ Columns := ["text", "value"],
                      Rows := (List.insertionSort creationGeS (suggestLoop [] sp)).map
                        (fun g => [g.LogStreamName, g.LogStreamName]) }] }] ∧
      List.Sorted creationGeS (List.insertionSort creationGeS (suggestLoop [] sp)) ∧
      (List.insertionSort creationGeS (suggestLoop [] sp)).Perm (suggestLoop [] sp)) ∧
    ((∀ p ∈ gp, p.length ≤ M) → (suggestLoop ([] : List LogGroup) gp).length ≤ 100 + M) ∧
    (100 < suggestSize gp → 100 < (suggestLoop ([] : List LogGroup) gp).length) := by
  refine ⟨⟨?_, List.sorted_insertionSort _ _, List.perm_insertionSort _ _⟩,
    ⟨?_, List.sorted_insertionSort _ _, List.perm_insertionSort _ _⟩,
    fun hb => suggestLoop_le M gp [] (by simp) hb,
    fun ht => suggestLoop_gt gp [] (by simpa using ht)⟩
  · simp [metricFindQuery, transformToTable, List.map_map, Function.comp_def]
  · simp [metricFindQuery, transformToTable, List.map_map, Function.comp_def]

/-- C8 counterexample: 101 single-entry pages accumulate 101 entries — the
table has 101 rows, beyond the claimed hard cap of 100 accumulated entries. -/
theorem C8_counterexample :
    suggestSize (List.replicate 101 [(⟨"g", 0⟩ : LogGroup)]) = 101 ∧
    (match metricFindQuery "log_group_names" (List.replicate 101 [⟨"g", 0⟩]) [] with
     | [r] =>
       match r.Tables with
       | [t] => t.Rows.length
       | _ => 0
     | _ => 0) = 101 := by
  refine ⟨by decide, by decide⟩

/-- C8 witness: the amended theorem applied to two single-entry group pages. -/
theorem C8_witness :
    metricFindQuery "log_group_names" [[⟨"g1", 5⟩], [⟨"g2", 9⟩]] [] =
      [{ RefId := "metricFindQuery",
         Tables := [{ Columns := ["text", "value"],
                      Rows := (List.insertionSort creationGeG
                          (suggestLoop [] [[⟨"g1", 5⟩], [⟨"g2", 9⟩]])).map
                        (fun g => [g.LogGroupName, g.LogGroupName]) }] }] ∧
    (suggestLoop ([] : List LogGroup) [[⟨"g1", 5⟩], [⟨"g2", 9⟩]]).length ≤ 100 + 1 :=
  ⟨(C8_theorem ([[⟨"g1", 5⟩], [⟨"g2", 9⟩]]) [] 1).1.1,
    (C8_theorem ([[⟨"g1", 5⟩], [⟨"g2", 9⟩]]) [] 1).2.2.1 (by decide)⟩

/-! ## Claim C10: the "timeserie" format in the plain retrieval path -/

/-- A target that the plain-path loop passes over without aborting: its format
is not `"timeserie"`, its retrieval succeeds, and (when it is a table) its
table conversion succeeds. -/
def tableOk (fmt : Int → Int → String)
    (remote : Nat → List (List FilteredLogEvent) × List (List OutputLogEvent))
    (i : Nat) (tg : Target) : Prop :=
  tg.Format ≠ "timeserie" ∧
  ∃ evs, getLogEvent tg.Input tg.StartFromHead (remote i).1 (remote i).2 = .ok evs ∧
    (tg.Format = "table" → ∃ r, parseTableResponse fmt evs tg.RefId = .ok r)

lemma handleQueryAux_skip (fmt : Int → Int → String)
    (remote : Nat → List (List FilteredLogEvent) × List (List OutputLogEvent)) :
    ∀ (pre : List Target) (i : Nat) (acc : List QueryResult) (rest0 : List Target),
      (∀ j tg, pre.get? j = some tg → tableOk fmt remote (i + j) tg) →
      ∃ acc', handleQueryAux fmt remote i (pre ++ rest0) acc =
        handleQueryAux fmt remote (i + pre.length) rest0 acc' := by
  intro pre
  induction pre with
  | nil =>
    intro i acc rest0 _
    exact ⟨acc, by simp⟩
  | cons tg pre' ih =>
    intro i acc rest0 hok
    have h0 := hok 0 tg rfl
    rw [Nat.add_zero] at h0
    obtain ⟨hfmt, evs, hevs, htab⟩ := h0
    have hshift : ∀ j tg', pre'.get? j = some tg' → tableOk fmt remote ((i + 1) + j) tg' := by
      intro j tg' hj
      have h := hok (j + 1) tg' (by simpa using hj)
      have hidx : i + (j + 1) = (i + 1) + j := by omega
      rwa [hidx] at h
    by_cases htbl : tg.Format = "table"
    · obtain ⟨r, hr⟩ := htab htbl
      have hstep : handleQueryAux fmt remote i (tg :: (pre' ++ rest0)) acc =
          handleQueryAux fmt remote (i + 1) (pre' ++ rest0) (acc ++ [r]) := by
        simp [handleQueryAux, hevs, hr, hfmt, htbl]
      obtain ⟨acc', hrec⟩ := ih (i + 1) (acc ++ [r]) rest0 hshift
      refine ⟨acc', ?_⟩
      have hidx : (i + 1) + pre'.length = i + (pre'.length + 1) := by omega
      rw [hidx] at hrec
      simp only [List.length_cons, List.cons_append]
      rw [hstep, hrec]
    · have hstep : handleQueryAux fmt remote i (tg :: (pre' ++ rest0)) acc =
          handleQueryAux fmt remote (i + 1) (pre' ++ rest0) acc := by
        simp [handleQueryAux, hevs, hfmt, htbl]
      obtain ⟨acc', hrec⟩ := ih (i + 1) acc rest0 hshift
      refine ⟨acc', ?_⟩
      have hidx : (i + 1) + pre'.length = i + (pre'.length + 1) := by omega
      rw [hidx] at hrec
      simp only [List.length_cons, List.cons_append]
      rw [hstep, hrec]

lemma handleQueryAux_tablesOnly (fmt : Int → Int → String)
    (remote : Nat → List (List FilteredLogEvent) × List (List OutputLogEvent)) :
    ∀ (targets : List Target) (i : Nat) (acc : List QueryResult)
      (res : List QueryResult),
      handleQueryAux fmt remote i targets acc = .ok res →
      (∀ r ∈ acc, r.Series = [] ∧ r.MetaJson = none ∧ r.Error = none) →
      ∀ r ∈ res, r.Series = [] ∧ r.MetaJson = none ∧ r.Error = none := by
  intro targets
  induction targets with
  | nil =>
    intro i acc res h hacc
    simp only [handleQueryAux, GoResult.ok.injEq] at h
    subst h
    exact hacc
  | cons tg rest ih =>
    intro i acc res h hacc
    simp only [handleQueryAux] at h
    cases hev : getLogEvent tg.Input tg.StartFromHead (remote i).1 (remote i).2 with
    | panic => rw [hev] at h; simp at h
    | err e => rw [hev] at h; simp at h
    | ok evs =>
      rw [hev] at h
      simp only at h
      by_cases ht : tg.Format = "timeserie"
      · rw [if_pos ht] at h
        simp at h
      · rw [if_neg ht] at h
        by_cases htb : tg.Format = "table"
        · rw [if_pos htb] at h
          cases hp : parseTableResponse fmt evs tg.RefId with
          | panic => rw [hp] at h; simp at h
          | err e => rw [hp] at h; simp at h
          | ok r =>
            rw [hp] at h
            simp only at h
            refine ih (i + 1) (acc ++ [r]) res h ?_
            intro x hx
            rcases List.mem_append.mp hx with hx | hx
            · exact hacc x hx
            · simp only [List.mem_singleton] at hx
              subst hx
              simp only [parseTableResponse] at hp
              cases hrows : parseTableRows fmt evs with
              | none => rw [hrows] at hp; simp at hp
              | some rows =>
                rw [hrows] at hp
                simp only [GoResult.ok.injEq] at hp
                subst hp
                exact ⟨rfl, rfl, rfl⟩
        · rw [if_neg htb] at h
          exact ih (i + 1) acc res h hacc

/-- C10: in the plain-retrieval path, a target with format `"timeserie"` makes
the whole call return the single error result `"not supported"` — AFTER that
target's retrieval has already run (a failing retrieval for the same target
yields its own error instead), discarding the table results computed for
earlier targets; and a normally returned plain response only ever carries
tables (no series, no metadata, no per-result error). -/
theorem C10_theorem (fmt : Int → Int → String)
    (remote : Nat → List (List FilteredLogEvent) × List (List OutputLogEvent)) :
    (∀ (pre : List Target) (t : Target) (post : List Target),
      t.Format = "timeserie" →
      (∀ j tg, pre.get? j = some tg → tableOk fmt remote j tg) →
      (∃ evs, getLogEvent t.Input t.StartFromHead (remote pre.length).1
        (remote pre.length).2 = .ok evs) →
      queryPlainWrap (handleQuery fmt remote (pre ++ t :: post)) =
        .ok [{ RefId := "", Error := some "not supported", MetaJson := none,
               Tables := [], Series := [] }]) ∧
    (∀ (pre : List Target) (t : Target) (post : List Target) (msg : String),
      (∀ j tg, pre.get? j = some tg → tableOk fmt remote j tg) →
      getLogEvent t.Input t.StartFromHead (remote pre.length).1
        (remote pre.length).2 = .err msg →
      handleQuery fmt remote (pre ++ t :: post) = .err msg) ∧
    (∀ (targets : List Target) (res : List QueryResult),
      handleQuery fmt remote targets = .ok res →
      ∀ r ∈ res, r.Series = [] ∧ r.MetaJson = none ∧ r.Error = none) := by
  refine ⟨?_, ?_, ?_⟩
  · intro pre t post ht hok hevs
    obtain ⟨evs, hevs⟩ := hevs
    obtain ⟨acc', hskip⟩ := handleQueryAux_skip fmt remote pre 0 [] (t :: post)
      (fun j tg hj => by simpa using hok j tg hj)
    rw [Nat.zero_add] at hskip
    rw [handleQuery, hskip]
    have hstep : handleQueryAux fmt remote pre.length (t :: post) acc' =
        .err "not supported" := by
      simp [handleQueryAux, hevs, ht]
    rw [hstep]
    rfl
  · intro pre t post msg hok herr
    obtain ⟨acc', hskip⟩ := handleQueryAux_skip fmt remote pre 0 [] (t :: post)
      (fun j tg hj => by simpa using hok j tg hj)
    rw [Nat.zero_add] at hskip
    rw [handleQuery, hskip]
    simp [handleQueryAux, herr]
  · intro targets res h
    exact handleQueryAux_tablesOnly fmt remote targets 0 [] res h (by simp)

/-- C10 witness: a batch holding a table target followed by a `"timeserie"`
target, with an empty remote, yields the single `"not supported"` error
result. -/
theorem C10_witness :
    queryPlainWrap (handleQuery (fun _ _ => "") (fun _ => ([], []))
        ([{ RefId := "A", Format := "table",
            Input := { FilterPattern := some "x", Limit := some 10 } }] ++
          { RefId := "B", Format := "timeserie",
            Input := { FilterPattern := some "x", Limit := some 10 } } :: [])) =
      .ok [{ RefId := "", Error := some "not supported", MetaJson := none,
             Tables := [], Series := [] }] :=
  (C10_theorem (fun _ _ => "") (fun _ => ([], []))).1
    [{ RefId := "A", Format := "table",
       Input := { FilterPattern := some "x", Limit := some 10 } }]
    { RefId := "B", Format := "timeserie",
      Input := { FilterPattern := some "x", Limit := some 10 } } []
    rfl
    (by
      intro j tg hj
      cases j with
      | zero =>
        simp only [List.get?] at hj
        cases hj
        refine ⟨by decide, [], by decide, fun _ => ?_⟩
        exact ⟨{ RefId := "A",
                 Tables := [{ Columns := ["Timestamp", "IngestionTime", "LogStreamName",
                   "Message"], Rows := [] }] }, by decide⟩
      | succ j' => simp [List.get?] at hj)
    ⟨[], by decide⟩
